import Mathlib

/-!
# Verification of the floating-point modular-arithmetic library

This file gives a shallow embedding of the repository's arithmetic code
(`src/arithmetic.rs`, `src/fp20.rs`, `src/field.rs`) and proves or refutes
the specification's claims about it.

Floating-point values are modelled as exact rationals together with an
explicit round-to-nearest-even operation `rnd p x` that rounds `x` to a
`p`-bit significand (`p = 11` for `f16`, `p = 24` for `f32`, `p = 53` for
`f64`).  The exponent range is unbounded, which is faithful on the value
ranges used by the code: no operation here overflows its format
(all `f16` values stay below the `f16` maximum 65504 and all values are far
above the subnormal thresholds), so IEEE-754 arithmetic on these inputs
agrees with the unbounded-exponent model.
-/

/-- Round a rational to the nearest integer, ties to even. -/
def rne (q : ℚ) : ℤ :=
  if q - ⌊q⌋ < 1/2 then ⌊q⌋
  else if 1/2 < q - ⌊q⌋ then ⌊q⌋ + 1
  else if ⌊q⌋ % 2 = 0 then ⌊q⌋ else ⌊q⌋ + 1

/-- Fuel-driven binade search: for positive `x` in range, returns `e` with
`2^e ≤ x < 2^(e+1)`.  Structural recursion on the fuel so that it can be
evaluated by rewriting. -/
def qexpAux : ℕ → ℚ → ℤ
  | 0, _ => 0
  | f+1, x => if 2 ≤ x then qexpAux f (x/2) + 1 else if x < 1 then qexpAux f (2*x) - 1 else 0

/-- Binade of a positive rational (valid for `2^(-300) ≤ x < 2^300`). -/
def qexp (x : ℚ) : ℤ := qexpAux 300 x

/-- Round `x` to the nearest floating-point value with a `p`-bit
significand (round-to-nearest, ties to even, unbounded exponent). -/
def rnd (p : ℕ) (x : ℚ) : ℚ :=
  if x = 0 then 0
  else (rne (x / 2 ^ (qexp |x| + 1 - (p : ℤ))) : ℚ) * 2 ^ (qexp |x| + 1 - (p : ℤ))

/-- Truncation toward zero, as performed by `f32::trunc` / `f64::trunc`
and by Rust's in-range float-to-integer casts. -/
def qtrunc (x : ℚ) : ℤ := if 0 ≤ x then ⌊x⌋ else -⌊-x⌋

/-- `x` is exactly representable with a `p`-bit significand. -/
def FRep (p : ℕ) (x : ℚ) : Prop := ∃ m k : ℤ, x = (m : ℚ) * 2 ^ k ∧ |m| < 2 ^ p

lemma two_zpow_succ (e : ℤ) : (2:ℚ) ^ (e + 1) = 2 ^ e * 2 := by
  rw [zpow_add₀ (by norm_num : (2:ℚ) ≠ 0)]; norm_num

lemma two_zpow_pred (e : ℤ) : (2:ℚ) ^ (e - 1) = 2 ^ e / 2 := by
  rw [zpow_sub₀ (by norm_num : (2:ℚ) ≠ 0)]; norm_num

lemma two_zpow_pos (e : ℤ) : (0:ℚ) < 2 ^ e := zpow_pos (by norm_num) e

lemma rne_intCast (n : ℤ) : rne (n : ℚ) = n := by
  unfold rne
  simp [Int.floor_intCast]

lemma floor_le_rne (q : ℚ) : ⌊q⌋ ≤ rne q := by
  unfold rne
  split
  · exact le_refl _
  · split
    · omega
    · split <;> omega

lemma rne_le_floor_add_one (q : ℚ) : rne q ≤ ⌊q⌋ + 1 := by
  unfold rne
  split
  · omega
  · split
    · omega
    · split <;> omega

lemma abs_rne_sub (q : ℚ) : |(rne q : ℚ) - q| ≤ 1/2 := by
  have hfl : (⌊q⌋ : ℚ) ≤ q := Int.floor_le q
  have hfu : q < ⌊q⌋ + 1 := Int.lt_floor_add_one q
  unfold rne
  split
  · rw [abs_le]; constructor <;> linarith
  · split
    · rw [abs_le]; constructor <;> push_cast <;> linarith
    · have h1 : ¬ (q - ↑⌊q⌋ < 1/2) := by assumption
      have h2 : ¬ (1/2 < q - ↑⌊q⌋) := by assumption
      have heq : q - (⌊q⌋ : ℚ) = 1/2 := le_antisymm (not_lt.mp h2) (not_lt.mp h1)
      split
      · rw [abs_le]; constructor <;> linarith
      · rw [abs_le]; constructor <;> push_cast <;> linarith

lemma qexpAux_spec : ∀ (f : ℕ) (x : ℚ), (2:ℚ) ^ (-(f:ℤ)) ≤ x → x < (2:ℚ) ^ (f:ℤ) →
    (2:ℚ) ^ (qexpAux f x) ≤ x ∧ x < (2:ℚ) ^ (qexpAux f x + 1) := by
  intro f
  induction f with
  | zero =>
    intro x h1 h2
    norm_num at h1 h2
    exact absurd (lt_of_le_of_lt h1 h2) (lt_irrefl 1)
  | succ f ih =>
    intro x h1 h2
    have hcast : ((f+1:ℕ) : ℤ) = (f:ℤ) + 1 := by push_cast; ring
    rw [hcast] at h2
    have h1' : (2:ℚ) ^ (-((f:ℤ) + 1)) ≤ x := by rw [← hcast]; exact h1
    have hx0 : 0 < x := lt_of_lt_of_le (two_zpow_pos _) h1'
    unfold qexpAux
    split
    · -- 2 ≤ x
      rename_i hge
      have r1 : (2:ℚ) ^ (-(f:ℤ)) ≤ x / 2 := by
        have h1'' : (1:ℚ) ≤ x / 2 := by linarith
        calc (2:ℚ) ^ (-(f:ℤ)) ≤ (2:ℚ) ^ (0:ℤ) :=
              zpow_le_zpow_right₀ (by norm_num) (by omega)
          _ = 1 := by norm_num
          _ ≤ x / 2 := h1''
      have r2 : x / 2 < (2:ℚ) ^ (f:ℤ) := by
        rw [two_zpow_succ] at h2
        linarith
      obtain ⟨c1, c2⟩ := ih (x/2) r1 r2
      refine ⟨?_, ?_⟩
      · rw [two_zpow_succ]; linarith
      · have e1 : (2:ℚ) ^ (qexpAux f (x/2) + 1 + 1) = (2:ℚ) ^ (qexpAux f (x/2) + 1) * 2 :=
          two_zpow_succ _
        rw [e1]; linarith
    · split
      · -- x < 1
        rename_i hnge hlt
        have r1 : (2:ℚ) ^ (-(f:ℤ)) ≤ 2 * x := by
          have e1 : (2:ℚ) ^ (-(f:ℤ)) = (2:ℚ) ^ (-((f:ℤ)+1)) * 2 := by
            rw [← two_zpow_succ]; congr 1; ring
          rw [e1]; linarith
        rcases Nat.eq_zero_or_pos f with hf | hf
        · subst hf
          norm_num at h1'
          refine ⟨?_, ?_⟩
          · show (2:ℚ) ^ (qexpAux 0 (2*x) - 1) ≤ x
            rw [show qexpAux 0 (2*x) = 0 from rfl]
            norm_num
            linarith
          · show x < (2:ℚ) ^ (qexpAux 0 (2*x) - 1 + 1)
            rw [show qexpAux 0 (2*x) = 0 from rfl]
            norm_num
            linarith
        · have r2 : 2 * x < (2:ℚ) ^ (f:ℤ) := by
            have h2f : (2:ℚ) ≤ (2:ℚ) ^ (f:ℤ) := by
              calc (2:ℚ) = (2:ℚ) ^ (1:ℤ) := by norm_num
                _ ≤ (2:ℚ) ^ (f:ℤ) := zpow_le_zpow_right₀ (by norm_num) (by omega)
            linarith
          obtain ⟨c1, c2⟩ := ih (2*x) r1 r2
          refine ⟨?_, ?_⟩
          · rw [two_zpow_pred]; linarith
          · have e1 : qexpAux f (2*x) - 1 + 1 = qexpAux f (2*x) := by ring
            rw [e1]
            rw [two_zpow_succ] at c2
            linarith
      · -- 1 ≤ x < 2
        rename_i hnge hnlt
        refine ⟨?_, ?_⟩
        · norm_num; linarith [not_lt.mp hnlt]
        · norm_num; linarith [not_le.mp hnge]

lemma qexp_spec {x : ℚ} (h1 : (2:ℚ) ^ (-(300:ℤ)) ≤ x) (h2 : x < (2:ℚ) ^ (300:ℤ)) :
    (2:ℚ) ^ (qexp x) ≤ x ∧ x < (2:ℚ) ^ (qexp x + 1) := by
  have := qexpAux_spec 300 x (by exact_mod_cast h1) (by exact_mod_cast h2)
  exact this

lemma qexp_eq {x : ℚ} {e : ℤ} (h1 : (2:ℚ) ^ e ≤ x) (h2 : x < (2:ℚ) ^ (e+1))
    (he1 : -290 ≤ e) (he2 : e ≤ 290) : qexp x = e := by
  have hb := qexp_spec
    (x := x)
    (le_trans (zpow_le_zpow_right₀ (by norm_num) (by omega)) h1)
    (lt_of_lt_of_le h2 (zpow_le_zpow_right₀ (by norm_num) (by omega)))
  rcases lt_trichotomy (qexp x) e with h | h | h
  · exfalso
    have : x < (2:ℚ) ^ e :=
      lt_of_lt_of_le hb.2 (zpow_le_zpow_right₀ (by norm_num) (by omega))
    linarith
  · exact h
  · exfalso
    have : x < (2:ℚ) ^ (qexp x) :=
      lt_of_lt_of_le h2 (zpow_le_zpow_right₀ (by norm_num) (by omega))
    linarith [hb.1]

lemma rnd_zero (p : ℕ) : rnd p 0 = 0 := by unfold rnd; norm_num

/-- Exactness: rounding a representable value in range is the identity. -/
lemma rnd_frep {p : ℕ} {x : ℚ} (h : FRep p x)
    (hlow : x = 0 ∨ (2:ℚ) ^ (-(150:ℤ)) ≤ |x|) (hhigh : |x| < (2:ℚ) ^ (150:ℤ)) :
    rnd p x = x := by
  rcases eq_or_ne x 0 with hx0 | hx0
  · rw [hx0, rnd_zero]
  obtain ⟨m, k, hxe, hm⟩ := h
  have hm0 : m ≠ 0 := by
    rintro rfl
    simp at hxe
    exact hx0 hxe
  have hlow' : (2:ℚ) ^ (-(150:ℤ)) ≤ |x| := hlow.resolve_left hx0
  have habs0 : (0:ℚ) < |x| := abs_pos.mpr hx0
  have hb := qexp_spec (x := |x|)
    (le_trans (zpow_le_zpow_right₀ (by norm_num) (by omega)) hlow')
    (lt_of_lt_of_le hhigh (zpow_le_zpow_right₀ (by norm_num) (by omega)))
  set e := qexp |x| with he
  -- |x| < 2^(k+p), so e < k + p, so s := e+1-p ≤ k
  have hub : |x| < (2:ℚ) ^ (k + (p:ℤ)) := by
    have h1 : |x| = |(m:ℚ)| * 2 ^ k := by
      rw [hxe, abs_mul, abs_of_pos (two_zpow_pos k)]
    have h2 : |(m:ℚ)| < (2:ℚ) ^ (p:ℤ) := by
      rw [← Int.cast_abs]
      have : ((|m|:ℤ):ℚ) < ((2^p : ℤ):ℚ) := by exact_mod_cast hm
      calc ((|m|:ℤ):ℚ) < ((2^p : ℤ):ℚ) := this
        _ = (2:ℚ) ^ (p:ℤ) := by push_cast [zpow_natCast]; ring
    calc |x| = |(m:ℚ)| * 2 ^ k := h1
      _ < (2:ℚ) ^ (p:ℤ) * 2 ^ k := by
          exact mul_lt_mul_of_pos_right h2 (two_zpow_pos k)
      _ = (2:ℚ) ^ (k + (p:ℤ)) := by
          rw [← zpow_add₀ (by norm_num : (2:ℚ) ≠ 0)]; congr 1; ring
  have hek : e < k + p := by
    by_contra hc
    push_neg at hc
    have : (2:ℚ) ^ (k + (p:ℤ)) ≤ (2:ℚ) ^ e := zpow_le_zpow_right₀ (by norm_num) hc
    linarith [hb.1]
  have hsk : e + 1 - (p:ℤ) ≤ k := by omega
  set s := e + 1 - (p:ℤ) with hs
  have hscale : x / 2 ^ s = ((m * 2 ^ (k - s).toNat : ℤ) : ℚ) := by
    have h1 : x / 2 ^ s = (m:ℚ) * 2 ^ (k - s) := by
      rw [div_eq_iff (ne_of_gt (two_zpow_pos s)), hxe, mul_assoc,
        ← zpow_add₀ (by norm_num : (2:ℚ) ≠ 0)]
      congr 2
      omega
    have h2 : ((2:ℚ)) ^ (k - s) = ((2:ℚ)) ^ ((k - s).toNat) := by
      rw [← zpow_natCast]
      congr 1
      omega
    rw [h1, h2]
    push_cast
    ring
  unfold rnd
  rw [if_neg hx0, ← he, ← hs, hscale, rne_intCast, ← hscale]
  field_simp

/-- Exactness for a value given as an explicit dyadic `m * 2^k`. -/
lemma rnd_dyadic (p : ℕ) {x : ℚ} (m k : ℤ) (hx : x = (m:ℚ) * 2 ^ k)
    (hm : |m| < 2 ^ p) (hk1 : -150 ≤ k) (hk2 : (p:ℤ) + k ≤ 150) : rnd p x = x := by
  apply rnd_frep ⟨m, k, hx, hm⟩
  · rcases eq_or_ne m 0 with rfl | hm0
    · left; rw [hx]; norm_num
    · right
      have h1 : (1:ℚ) ≤ |(m:ℚ)| := by
        rw [← Int.cast_abs]
        exact_mod_cast Int.one_le_abs hm0
      have : |x| = |(m:ℚ)| * 2 ^ k := by
        rw [hx, abs_mul, abs_of_pos (two_zpow_pos k)]
      rw [this]
      calc (2:ℚ) ^ (-(150:ℤ)) ≤ (2:ℚ) ^ k := zpow_le_zpow_right₀ (by norm_num) hk1
        _ = 1 * 2 ^ k := by ring
        _ ≤ |(m:ℚ)| * 2 ^ k := by
            exact mul_le_mul_of_nonneg_right h1 (two_zpow_pos k).le
  · have h2 : |(m:ℚ)| < (2:ℚ) ^ (p:ℤ) := by
      rw [← Int.cast_abs]
      have : ((|m|:ℤ):ℚ) < ((2^p : ℤ):ℚ) := by exact_mod_cast hm
      calc ((|m|:ℤ):ℚ) < ((2^p : ℤ):ℚ) := this
        _ = (2:ℚ) ^ (p:ℤ) := by push_cast [zpow_natCast]; ring
    have : |x| = |(m:ℚ)| * 2 ^ k := by
      rw [hx, abs_mul, abs_of_pos (two_zpow_pos k)]
    rw [this]
    calc |(m:ℚ)| * 2 ^ k < (2:ℚ) ^ (p:ℤ) * 2 ^ k := by
          exact mul_lt_mul_of_pos_right h2 (two_zpow_pos k)
      _ = (2:ℚ) ^ ((p:ℤ) + k) := by
          rw [← zpow_add₀ (by norm_num : (2:ℚ) ≠ 0)]
      _ ≤ (2:ℚ) ^ (150:ℤ) := zpow_le_zpow_right₀ (by norm_num) hk2

/-- Error bound: rounding moves a value by at most half an ulp. -/
lemma rnd_err {p : ℕ} {x : ℚ} (E : ℤ) (hE : |x| < (2:ℚ) ^ (E+1))
    (hlow : x = 0 ∨ (2:ℚ) ^ (-(150:ℤ)) ≤ |x|) (hE2 : E ≤ 250) :
    |rnd p x - x| ≤ (2:ℚ) ^ (E - (p:ℤ)) := by
  rcases eq_or_ne x 0 with hx0 | hx0
  · rw [hx0, rnd_zero]
    simpa using (two_zpow_pos (E - (p:ℤ))).le
  have hlow' : (2:ℚ) ^ (-(150:ℤ)) ≤ |x| := hlow.resolve_left hx0
  have hb := qexp_spec (x := |x|)
    (le_trans (zpow_le_zpow_right₀ (by norm_num) (by omega)) hlow')
    (lt_of_lt_of_le hE (zpow_le_zpow_right₀ (by norm_num) (by omega)))
  set e := qexp |x| with he
  have heE : e ≤ E := by
    by_contra hc
    push_neg at hc
    have : (2:ℚ) ^ (E+1) ≤ (2:ℚ) ^ e := zpow_le_zpow_right₀ (by norm_num) (by omega)
    linarith [hb.1]
  set s := e + 1 - (p:ℤ) with hs
  have hrw : rnd p x = (rne (x / 2 ^ s) : ℚ) * 2 ^ s := by
    unfold rnd
    rw [if_neg hx0, ← he, ← hs]
  rw [hrw]
  have key : (rne (x / 2 ^ s) : ℚ) * 2 ^ s - x
      = ((rne (x / 2 ^ s) : ℚ) - x / 2 ^ s) * 2 ^ s := by
    field_simp
  rw [key, abs_mul, abs_of_pos (two_zpow_pos s)]
  calc |(rne (x / 2 ^ s) : ℚ) - x / 2 ^ s| * 2 ^ s ≤ (1/2) * 2 ^ s := by
        exact mul_le_mul_of_nonneg_right (abs_rne_sub _) (two_zpow_pos s).le
    _ = (2:ℚ) ^ (s - 1) := by rw [two_zpow_pred]; ring
    _ = (2:ℚ) ^ (e - (p:ℤ)) := by congr 1; omega
    _ ≤ (2:ℚ) ^ (E - (p:ℤ)) := zpow_le_zpow_right₀ (by norm_num) (by omega)

lemma int_cast_lower (n : ℤ) : ((n:ℚ) = 0) ∨ (2:ℚ) ^ (-(150:ℤ)) ≤ |(n:ℚ)| := by
  rcases eq_or_ne n 0 with rfl | hn
  · left; norm_num
  · right
    have h1 : (1:ℚ) ≤ |(n:ℚ)| := by
      rw [← Int.cast_abs]
      exact_mod_cast Int.one_le_abs hn
    calc (2:ℚ) ^ (-(150:ℤ)) ≤ (2:ℚ) ^ (0:ℤ) := zpow_le_zpow_right₀ (by norm_num) (by omega)
      _ = 1 := by norm_num
      _ ≤ |(n:ℚ)| := h1

/-- Rounding an integer yields an integer. -/
lemma rnd_intCast_int {p : ℕ} (hp1 : 0 < p) (hp2 : p ≤ 60) (n : ℤ)
    (hn : |n| ≤ 2 ^ 80) : ∃ m : ℤ, rnd p ((n:ℚ)) = (m:ℚ) := by
  by_cases hsmall : |n| < 2 ^ p
  · exact ⟨n, by rw [rnd_dyadic p n 0 (by norm_num) hsmall (by norm_num) (by omega)]⟩
  push_neg at hsmall
  have hn0 : n ≠ 0 := by
    intro h
    rw [h] at hsmall
    simp at hsmall
    have : (0:ℤ) < 2 ^ p := by positivity
    omega
  have hx0 : ((n:ℚ)) ≠ 0 := Int.cast_ne_zero.mpr hn0
  have habs : |(n:ℚ)| = ((|n| : ℤ) : ℚ) := by rw [Int.cast_abs]
  have hb := qexp_spec (x := |(n:ℚ)|)
    (by
      have h := (int_cast_lower n).resolve_left hx0
      exact le_trans (zpow_le_zpow_right₀ (by norm_num) (by omega)) h)
    (by
      rw [habs]
      calc ((|n| : ℤ) : ℚ) ≤ ((2^80 : ℤ) : ℚ) := by exact_mod_cast hn
        _ = (2:ℚ) ^ (80:ℤ) := by push_cast; norm_num
        _ < (2:ℚ) ^ (300:ℤ) := by
            exact zpow_lt_zpow_right₀ (by norm_num) (by omega))
  set e := qexp |(n:ℚ)| with he
  have hep : (p:ℤ) ≤ e := by
    by_contra hc
    push_neg at hc
    have h2 : (2:ℚ) ^ (p:ℤ) ≤ |(n:ℚ)| := by
      rw [habs]
      calc (2:ℚ) ^ (p:ℤ) = ((2^p : ℤ) : ℚ) := by push_cast [zpow_natCast]; ring
        _ ≤ ((|n| : ℤ) : ℚ) := by exact_mod_cast hsmall
    have h3 : |(n:ℚ)| < (2:ℚ) ^ (p:ℤ) :=
      lt_of_lt_of_le hb.2 (zpow_le_zpow_right₀ (by norm_num) (by omega))
    linarith
  set s := e + 1 - (p:ℤ) with hs
  have hs0 : 0 ≤ s := by omega
  refine ⟨rne ((n:ℚ) / 2 ^ s) * 2 ^ s.toNat, ?_⟩
  unfold rnd
  rw [if_neg hx0, ← he, ← hs]
  push_cast
  rw [show ((2:ℚ) ^ s.toNat = (2:ℚ) ^ ((s.toNat : ℤ))) from (zpow_natCast 2 _).symm]
  rw [Int.toNat_of_nonneg hs0]

lemma rnd_nonneg {p : ℕ} {x : ℚ} (hx : 0 ≤ x) : 0 ≤ rnd p x := by
  rcases eq_or_ne x 0 with rfl | hx0
  · rw [rnd_zero]
  unfold rnd
  rw [if_neg hx0]
  have h1 : (0:ℚ) ≤ x / 2 ^ (qexp |x| + 1 - (p:ℤ)) :=
    div_nonneg hx (two_zpow_pos _).le
  have h2 : (0:ℤ) ≤ rne (x / 2 ^ (qexp |x| + 1 - (p:ℤ))) := by
    refine le_trans ?_ (floor_le_rne _)
    exact Int.floor_nonneg.mpr h1
  have h2' : (0:ℚ) ≤ (rne (x / 2 ^ (qexp |x| + 1 - (p:ℤ))) : ℚ) := by exact_mod_cast h2
  exact mul_nonneg h2' (two_zpow_pos _).le

/-- The result of rounding is representable. -/
lemma rnd_rep {p : ℕ} {x : ℚ} (hp1 : 0 < p)
    (hlow : x = 0 ∨ (2:ℚ) ^ (-(150:ℤ)) ≤ |x|) (hhigh : |x| < (2:ℚ) ^ (150:ℤ)) :
    FRep p (rnd p x) := by
  rcases eq_or_ne x 0 with rfl | hx0
  · rw [rnd_zero]
    refine ⟨0, 0, by norm_num, ?_⟩
    simp
  have hlow' : (2:ℚ) ^ (-(150:ℤ)) ≤ |x| := hlow.resolve_left hx0
  have hb := qexp_spec (x := |x|)
    (le_trans (zpow_le_zpow_right₀ (by norm_num) (by omega)) hlow')
    (lt_of_lt_of_le hhigh (zpow_le_zpow_right₀ (by norm_num) (by omega)))
  set e := qexp |x| with he
  set s := e + 1 - (p:ℤ) with hs
  have hrw : rnd p x = (rne (x / 2 ^ s) : ℚ) * 2 ^ s := by
    unfold rnd
    rw [if_neg hx0, ← he, ← hs]
  set y := x / 2 ^ s with hy
  have hyabs : |y| < (2:ℚ) ^ (p:ℤ) := by
    rw [hy, abs_div, abs_of_pos (two_zpow_pos s)]
    rw [div_lt_iff₀ (two_zpow_pos s)]
    calc |x| < (2:ℚ) ^ (e+1) := hb.2
      _ = (2:ℚ) ^ (p:ℤ) * 2 ^ s := by
          rw [← zpow_add₀ (by norm_num : (2:ℚ) ≠ 0)]; congr 1; omega
  have hyabs' : ((|rne y| : ℤ) : ℚ) ≤ (2:ℚ) ^ (p:ℤ) := by
    have hfl : (⌊y⌋ : ℚ) ≤ y := Int.floor_le y
    have hfu : y < ⌊y⌋ + 1 := Int.lt_floor_add_one y
    have hr1 := floor_le_rne y
    have hr2 := rne_le_floor_add_one y
    have hay := abs_lt.mp hyabs
    rw [Int.cast_abs]
    rw [abs_le]
    constructor
    · have h4 : (⌊y⌋:ℚ) ≤ ((rne y : ℤ) : ℚ) := by exact_mod_cast hr1
      have h5 : y - 1 < (⌊y⌋:ℚ) := by linarith
      have h6 : -((2:ℚ) ^ (p:ℤ)) - 1 < ((rne y : ℤ) : ℚ) := by linarith [hay.1]
      have h7 : (2:ℚ) ^ (p:ℤ) = ((2^p : ℤ) : ℚ) := by push_cast [zpow_natCast]; ring
      rw [h7] at h6 ⊢
      have h8 : -(2^p : ℤ) - 1 < rne y := by exact_mod_cast h6
      have h9 : -(2^p : ℤ) ≤ rne y := by omega
      exact_mod_cast h9
    · have : ((rne y : ℤ) : ℚ) ≤ (⌊y⌋:ℚ) + 1 := by exact_mod_cast hr2
      have h5 : (⌊y⌋:ℚ) ≤ y := hfl
      -- rne y ≤ ⌊y⌋ + 1 ≤ y + 1 < 2^p + 1, and both sides integers
      have h6 : ((rne y : ℤ) : ℚ) < (2:ℚ) ^ (p:ℤ) + 1 := by linarith [hay.2]
      have h7 : (2:ℚ) ^ (p:ℤ) = ((2^p : ℤ) : ℚ) := by push_cast [zpow_natCast]; ring
      rw [h7] at h6 ⊢
      have h8 : (rne y) < 2^p + 1 := by exact_mod_cast h6
      have h9 : (rne y) ≤ 2^p := by omega
      exact_mod_cast h9
  have hcase : |rne y| ≤ 2 ^ p := by
    have h7 : (2:ℚ) ^ (p:ℤ) = ((2^p : ℤ) : ℚ) := by push_cast [zpow_natCast]; ring
    rw [h7] at hyabs'
    exact_mod_cast hyabs'
  rcases lt_or_eq_of_le hcase with hlt | heq
  · exact ⟨rne y, s, hrw, hlt⟩
  · -- |rne y| = 2^p : re-normalize the mantissa
    have hsplit : rne y = 2 ^ p ∨ rne y = -(2 ^ p) :=
      (abs_eq (α := ℤ) (by positivity : (0:ℤ) ≤ 2 ^ p)).mp heq
    have hpcast : ((2:ℚ)) ^ (p - 1) = (2:ℚ) ^ ((p:ℤ) - 1) := by
      rw [← zpow_natCast]
      congr 1
      omega
    have hpcast2 : (((2:ℤ) ^ p : ℤ) : ℚ) = (2:ℚ) ^ ((p:ℤ)) := by
      push_cast [zpow_natCast]
      ring
    have hpow : ((2:ℚ)) ^ ((p:ℤ) - 1) * 2 ^ (s+1) = 2 ^ ((p:ℤ)) * 2 ^ s := by
      rw [← zpow_add₀ (by norm_num : (2:ℚ) ≠ 0), ← zpow_add₀ (by norm_num : (2:ℚ) ≠ 0)]
      congr 1; ring
    have hm' : |((2:ℤ) ^ (p - 1))| < 2 ^ p := by
      rw [abs_of_nonneg (by positivity : (0:ℤ) ≤ 2 ^ (p-1))]
      have h2 : (2:ℤ) ^ (p - 1) * 1 < 2 ^ (p-1) * 2 := by
        have : (0:ℤ) < 2 ^ (p-1) := by positivity
        omega
      calc (2:ℤ) ^ (p - 1) = 2 ^ (p-1) * 1 := by ring
        _ < 2 ^ (p-1) * 2 := h2
        _ = 2 ^ (p - 1 + 1) := by rw [pow_succ]
        _ = 2 ^ p := by congr 1; omega
    rcases hsplit with h | h
    · refine ⟨2 ^ (p - 1), s + 1, ?_, hm'⟩
      rw [hrw, h]
      push_cast [zpow_natCast]
      rw [show ((2:ℚ) ^ (p-1) = (2:ℚ) ^ (((p:ℤ)) - 1)) from hpcast]
      rw [hpow]
      rw [show ((2:ℚ) ^ p = (2:ℚ) ^ ((p:ℤ))) from (zpow_natCast 2 p).symm]
    · refine ⟨-(2 ^ (p - 1)), s + 1, ?_, by rwa [abs_neg]⟩
      rw [hrw, h]
      push_cast [zpow_natCast]
      rw [show ((2:ℚ) ^ (p-1) = (2:ℚ) ^ (((p:ℤ)) - 1)) from hpcast]
      rw [neg_mul, neg_mul, neg_inj, hpow]
      rw [show ((2:ℚ) ^ p = (2:ℚ) ^ ((p:ℤ))) from (zpow_natCast 2 p).symm]

lemma rne_eval_lo {q : ℚ} {f : ℤ} (hf1 : (f:ℚ) ≤ q) (hf2 : q - f < 1/2) : rne q = f := by
  have hfl : ⌊q⌋ = f := Int.floor_eq_iff.mpr ⟨hf1, by linarith⟩
  unfold rne
  rw [hfl, if_pos hf2]

lemma rne_eval_hi {q : ℚ} {f : ℤ} (hf1 : (f:ℚ) ≤ q) (hf2 : q < f + 1)
    (hf3 : 1/2 < q - f) : rne q = f + 1 := by
  have hfl : ⌊q⌋ = f := Int.floor_eq_iff.mpr ⟨hf1, hf2⟩
  unfold rne
  rw [hfl, if_neg (by linarith), if_pos hf3]

/-- Evaluate `rnd` at a concrete positive input from its binade and the
rounded mantissa. -/
lemma rnd_eval_pos {p : ℕ} {x : ℚ} {e r : ℤ} (hx : 0 < x)
    (h1 : (2:ℚ) ^ e ≤ x) (h2 : x < (2:ℚ) ^ (e+1)) (he1 : -250 ≤ e) (he2 : e ≤ 250)
    (hr : rne (x / 2 ^ (e + 1 - (p:ℤ))) = r) :
    rnd p x = (r:ℚ) * 2 ^ (e + 1 - (p:ℤ)) := by
  have habs : |x| = x := abs_of_pos hx
  unfold rnd
  rw [if_neg (ne_of_gt hx), habs, qexp_eq h1 h2 (by omega) (by omega), hr]

lemma qtrunc_eq_floor {x : ℚ} (h : 0 ≤ x) : qtrunc x = ⌊x⌋ := if_pos h

lemma qtrunc_intCast (n : ℤ) : qtrunc (n:ℚ) = n := by
  unfold qtrunc
  rcases le_or_lt 0 n with h | h
  · rw [if_pos (by exact_mod_cast h), Int.floor_intCast]
  · rw [if_neg (by exact not_le.mpr (by exact_mod_cast h))]
    rw [show (-(n:ℚ)) = ((-n : ℤ) : ℚ) by push_cast; ring, Int.floor_intCast]
    omega

lemma qtrunc_natCast (n : ℕ) : qtrunc (n:ℚ) = (n:ℤ) := by
  have := qtrunc_intCast (n:ℤ)
  rwa [show (((n:ℤ)):ℚ) = ((n:ℕ):ℚ) by norm_num] at this

lemma qtrunc_natCast_div (n d : ℕ) : qtrunc ((n:ℚ) / (d:ℚ)) = ((n / d : ℕ) : ℤ) := by
  have h0 : (0:ℚ) ≤ (n:ℚ) / (d:ℚ) := by positivity
  rw [qtrunc_eq_floor h0]
  have h1 : ((n:ℕ):ℚ) = (((n:ℕ):ℤ):ℚ) := by norm_num
  rw [h1, Rat.floor_intCast_div_natCast]
  omega

lemma sub_trunc_natCast_div (n d : ℕ) (hd : (d:ℚ) ≠ 0) :
    (n:ℚ) / (d:ℚ) - ((n / d : ℕ) : ℚ) = ((n % d : ℕ) : ℚ) / (d:ℚ) := by
  rw [div_sub' _ _ _ hd, div_eq_div_iff hd hd]
  have hsplit : (n:ℕ) = d * (n / d) + n % d := (Nat.div_add_mod n d).symm
  nth_rewrite 1 [show ((n:ℕ):ℚ) = ((d:ℕ):ℚ) * ((n/d : ℕ):ℚ) + ((n % d : ℕ):ℚ) by
    exact_mod_cast congrArg (fun z : ℕ => (z : ℚ)) hsplit]
  ring

/-! ## Floating-point operations per format

`f16` has an 11-bit significand, `f32` a 24-bit one, `f64` a 53-bit one.
Negation and absolute value are always exact; every other operation rounds
its exact rational result. -/

def f16add (x y : ℚ) : ℚ := rnd 11 (x + y)

def f16sub (x y : ℚ) : ℚ := rnd 11 (x - y)

def f16mul (x y : ℚ) : ℚ := rnd 11 (x * y)

def f16trunc (x : ℚ) : ℚ := (qtrunc x : ℚ)

def f32add (x y : ℚ) : ℚ := rnd 24 (x + y)

def f32sub (x y : ℚ) : ℚ := rnd 24 (x - y)

def f32mul (x y : ℚ) : ℚ := rnd 24 (x * y)

def f32div (x y : ℚ) : ℚ := rnd 24 (x / y)

def f32fma (x y z : ℚ) : ℚ := rnd 24 (x * y + z)

def f32trunc (x : ℚ) : ℚ := (qtrunc x : ℚ)

def f32floor (x : ℚ) : ℚ := (⌊x⌋ : ℚ)

/-- `f32::fract` is `self - self.trunc()` (the subtraction is in fact
always exact, which the proofs establish where needed). -/
def f32fract (x : ℚ) : ℚ := f32sub x (f32trunc x)

def f64add (x y : ℚ) : ℚ := rnd 53 (x + y)

def f64sub (x y : ℚ) : ℚ := rnd 53 (x - y)

def f64mul (x y : ℚ) : ℚ := rnd 53 (x * y)

def f64fma (x y z : ℚ) : ℚ := rnd 53 (x * y + z)

def f64trunc (x : ℚ) : ℚ := (qtrunc x : ℚ)

/-! ## Embedding of `src/arithmetic.rs`, module `half_precision`

u8 arithmetic simulated with `f16`; u32 arithmetic as four `f16` limbs. -/

/-- `U8::new(v)`: `f16::from_f32_const(v as f32)`. -/
def U8new (v : ℕ) : ℚ := rnd 11 (rnd 24 (v:ℚ))

/-- `impl From<U8> for u8`: `v.0.to_f32() as u8` (a saturating,
truncating cast). -/
def U8toU8 (x : ℚ) : ℕ := min 255 (qtrunc x).toNat

/-- `U8::MODULUS`: `f16::from_f32_const(256.0)`. -/
def U8MOD : ℚ := rnd 11 (rnd 24 (256:ℚ))

/-- `U8::MODULUS_INV`: `f16::from_f32_const(1.0 / 256.0)`. -/
def U8MODINV : ℚ := rnd 11 (rnd 24 ((1:ℚ)/256))

/-- `mad_f16(a, b, c)`: converts to `f32`, does a fused multiply-add
there, and converts back to `f16`. -/
def mad16 (a b c : ℚ) : ℚ := rnd 11 (f32fma a b c)

/-- `impl Add for U8`. -/
def U8add (x y : ℚ) : ℚ :=
  let a := f16add x y
  if U8MOD ≤ a then f16sub a U8MOD else a

/-- `impl Mul for U8`. -/
def U8mul (x y : ℚ) : ℚ :=
  let h := f16mul x y
  let l := mad16 x y (-h)
  let b := f16mul h U8MODINV
  let c := f16trunc b
  let d := mad16 (-c) U8MOD h
  let e := f16add d l
  if U8MOD ≤ e then f16sub e U8MOD else if e < 0 then f16add e U8MOD else e

/-- `half_precision::U32::new(v)`: four 8-bit limbs, least significant
first. -/
def U32hNew (v : ℕ) : ℚ × ℚ × ℚ × ℚ :=
  (U8new (v % 256), U8new (v / 2^8 % 256), U8new (v / 2^16 % 256), U8new (v / 2^24 % 256))

/-- `impl Add for half_precision::U32`: ripple-carry over the four `f16`
limbs. -/
def U32hAdd (x y : ℚ × ℚ × ℚ × ℚ) : ℚ × ℚ × ℚ × ℚ :=
  let l0 := f16add x.1 y.1
  let l1 := f16add x.2.1 y.2.1
  let l2 := f16add x.2.2.1 y.2.2.1
  let l3 := f16add x.2.2.2 y.2.2.2
  let c0 := if U8MOD ≤ l0 then (f16sub l0 U8MOD, f16add l1 1) else (l0, l1)
  let l0 := c0.1
  let l1 := c0.2
  let c1 := if U8MOD ≤ l1 then (f16sub l1 U8MOD, f16add l2 1) else (l1, l2)
  let l1 := c1.1
  let l2 := c1.2
  let c2 := if U8MOD ≤ l2 then (f16sub l2 U8MOD, f16add l3 1) else (l2, l3)
  let l2 := c2.1
  let l3 := c2.2
  let l3 := if U8MOD ≤ l3 then f16sub l3 U8MOD else l3
  (l0, l1, l2, l3)

/-- `impl Mul for half_precision::U32` is `todo!()`: invoking it panics
and never produces a value, modelled as `none`. -/
def U32hMul (_x _y : ℚ × ℚ × ℚ × ℚ) : Option (ℚ × ℚ × ℚ × ℚ) := none

/-! ## Embedding of `src/arithmetic.rs`, module `single_precision`

u16 arithmetic simulated with `f32`; u32 arithmetic as two 16-bit limbs
(`U32`) or as an asymmetric 11/20-bit split (`U31`). -/

/-- `U16::new(v)`: `v as f32`. -/
def U16new (v : ℕ) : ℚ := rnd 24 (v:ℚ)

/-- `U16::MODULUS = 65536.0` (exactly representable). -/
def U16MOD : ℚ := 65536

/-- `U16::MODULUS_INV = 1.0 / 65536.0` (a compile-time `f32` division). -/
def U16MODINV : ℚ := rnd 24 ((1:ℚ)/65536)

/-- `impl Add for U16`. -/
def U16add (x y : ℚ) : ℚ :=
  let a := f32add x y
  if U16MOD ≤ a then f32sub a U16MOD else a

/-- `impl Mul for U16`. -/
def U16mul (x y : ℚ) : ℚ :=
  let h := f32mul x y
  let l := f32fma x y (-h)
  let b := f32mul h U16MODINV
  let c := f32trunc b
  let d := f32fma (-c) U16MOD h
  let e := f32add d l
  if U16MOD ≤ e then f32sub e U16MOD else if e < 0 then f32add e U16MOD else e

/-- `single_precision::U32::new(v)`: limbs `v as u16` and
`(v >> 16) as u16`. -/
def U32spNew (v : ℕ) : ℚ × ℚ :=
  (U16new (v % 65536), U16new (v / 65536 % 65536))

/-- `impl Add for single_precision::U32`. -/
def U32spAdd (x y : ℚ × ℚ) : ℚ × ℚ :=
  let l0 := f32add x.1 y.1
  let l1 := f32add x.2 y.2
  let c0 := if U16MOD ≤ l0 then (f32sub l0 U16MOD, f32add l1 1) else (l0, l1)
  let l0 := c0.1
  let l1 := c0.2
  let l1 := if U16MOD ≤ l1 then f32sub l1 U16MOD else l1
  (l0, l1)

/-- The local `fn mul(a: f32, b: f32) -> f32` inside
`single_precision::U32::mul`: reduction modulo 65536 without final
normalization. -/
def innerMulSP (a b : ℚ) : ℚ :=
  let h := f32mul a b
  let l := f32fma a b (-h)
  let b2 := f32mul h U16MODINV
  let c := f32trunc b2
  let d := f32fma (-c) U16MOD h
  f32add d l

/-- `impl Mul for single_precision::U32`: sub-digit schoolbook multiply
with byte-aligned accumulators. -/
def U32spMul (s r : ℚ × ℚ) : ℚ × ℚ :=
  let sv0 := f32div s.1 256
  let sv1 := f32div s.2 256
  let top0 := f32div (f32trunc sv1) 16
  let top1 := f32mul (f32fract sv1) 16
  let top2 := f32div (f32trunc sv0) 16
  let top3 := f32mul (f32fract sv0) 16
  let rv0 := f32div r.1 256
  let rv1 := f32div r.2 256
  let bot0 := f32div (f32trunc rv1) 16
  let bot1 := f32mul (f32fract rv1) 16
  let bot2 := f32div (f32trunc rv0) 16
  let bot3 := f32mul (f32fract rv0) 16
  let p03 := innerMulSP top3 bot3
  let p02 := innerMulSP top3 bot2
  let p01 := innerMulSP top3 bot1
  let p00 := innerMulSP top3 bot0
  let p13 := innerMulSP top2 bot3
  let p12 := innerMulSP top2 bot2
  let p11 := innerMulSP top2 bot1
  let p23 := innerMulSP top1 bot3
  let p22 := innerMulSP top1 bot2
  let p33 := innerMulSP top0 bot3
  let fourth32 := f32mul (f32fract p03) 256
  let third32 := f32fma (f32fract p02) 256 (f32trunc p03)
  let second32 := f32fma (f32fract p01) 256 (f32trunc p02)
  let first32 := f32fma (f32fract p00) 256 (f32trunc p01)
  let third32 := f32fma (f32fract p13) 256 third32
  let second32 := f32add second32 (f32fma (f32fract p12) 256 (f32trunc p13))
  let first32 := f32add first32 (f32fma (f32fract p11) 256 (f32trunc p12))
  let second32 := f32fma (f32fract p23) 256 second32
  let first32 := f32add first32 (f32fma (f32fract p22) 256 (f32trunc p23))
  let first32 := f32fma (f32fract p33) 256 first32
  let v0 := f32div (f32fma third32 256 fourth32) 65536
  let v1 := f32div (f32fma first32 256 second32) 65536
  let l0 := f32mul (f32fract v0) 65536
  let l1 := f32fma (f32fract v1) 65536 (f32trunc v0)
  let l1 := if (65536:ℚ) ≤ l1 then f32sub l1 65536 else l1
  (l0, l1)

/-- `U31::new(v)`: limbs `(v & 0x7FF) as f32` and
`((v >> 11) & 0xFFFFF) as f32`. -/
def U31new (v : ℕ) : ℚ × ℚ :=
  (rnd 24 ((v % 2048 : ℕ) : ℚ), rnd 24 ((v / 2048 % 1048576 : ℕ) : ℚ))

/-- `impl Add for U31`. -/
def U31add (x y : ℚ × ℚ) : ℚ × ℚ :=
  let l0 := f32add x.1 y.1
  let l1 := f32add x.2 y.2
  let c0 := if (2048:ℚ) ≤ l0 then (f32sub l0 2048, f32add l1 1) else (l0, l1)
  let l0 := c0.1
  let l1 := c0.2
  let l1 := if (1048576:ℚ) ≤ l1 then f32sub l1 1048576 else l1
  (l0, l1)

/-- The local `fn mul::<MODULUS>(a, b)` inside `U31::mul`, at
`MODULUS = 2^20`: reduction modulo `2^20` without final normalization. -/
def innerMul20 (a b : ℚ) : ℚ :=
  let h := f32mul a b
  let l := f32fma a b (-h)
  let b2 := f32mul h (rnd 24 ((1:ℚ)/1048576))
  let c := f32trunc b2
  let d := f32fma (-c) 1048576 h
  f32add d l

/-- `impl Mul for U31`: asymmetric 11/20-bit split multiply with the
extra cross-boundary term. -/
def U31mul (s r : ℚ × ℚ) : ℚ × ℚ :=
  let tmp0 := f32div (f32mul s.1 r.1) 2048
  let l0 := f32mul (f32fract tmp0) 2048
  let l1 := f32trunc tmp0
  let l1 := f32add l1 (innerMul20 s.1 r.2)
  let l1 := f32add l1 (innerMul20 s.2 r.1)
  let l1 := if (1048576:ℚ) ≤ l1 then f32sub l1 1048576 else l1
  let tmpLha := f32mul (f32fract (f32div s.2 512)) (512*64)
  let tmpRhs := f32mul (f32fract (f32div r.2 512)) (512*32)
  let l1 := f32add l1 (innerMul20 tmpLha tmpRhs)
  let l1 := if (1048576:ℚ) ≤ l1 then f32sub l1 1048576 else l1
  (l0, l1)

/-! ## Embedding of `src/arithmetic.rs`, module `double_precision`

u32 arithmetic simulated with `f64`. -/

/-- `double_precision::U32::new(v)`: `v as f64`. -/
def U32dNew (v : ℕ) : ℚ := rnd 53 (v:ℚ)

/-- `double_precision::U32::MODULUS = 4294967296.0`. -/
def U32dMOD : ℚ := 4294967296

/-- `double_precision::U32::MODULUS_INV = 1.0 / 4294967296.0`. -/
def U32dMODINV : ℚ := rnd 53 ((1:ℚ)/4294967296)

/-- `impl Add for double_precision::U32`. -/
def U32dAdd (x y : ℚ) : ℚ :=
  let a := f64add x y
  if U32dMOD ≤ a then f64sub a U32dMOD else a

/-- `impl Mul for double_precision::U32`. -/
def U32dMul (x y : ℚ) : ℚ :=
  let h := f64mul x y
  let l := f64fma x y (-h)
  let b := f64mul h U32dMODINV
  let c := f64trunc b
  let d := f64fma (-c) U32dMOD h
  let e := f64add d l
  if U32dMOD ≤ e then f64sub e U32dMOD else if e < 0 then f64add e U32dMOD else e

/-! ## Embedding of `src/fp20.rs`

A pseudo-Mersenne prime field with `p = 0b111111111111111110111 = 2097143`,
in an integer version and two floating-point versions. -/

/-- `integer::MODULUS = 0b111111111111111110111 = 2097143`. -/
def fpMOD : ℕ := 2097143

/-- The fold constant `C = MODULUS.next_power_of_two() - MODULUS`
(the next power of two of 2097143 is `2^21 = 2097152`). -/
def fpC : ℕ := 2097152 - fpMOD

/-- `integer::reduce`: two folds at bit 21 followed by at most two
conditional corrections.  (`(a >> 21) as u32` truncates to 32 bits.) -/
def fpReduce (a : ℕ) : ℕ :=
  let b := (a / 2^21 % 2^32) * fpC + a % 2^32 % 2^21
  let r := (b / 2^21) * fpC + b % 2^21
  let rp := r + fpC
  if 2^21 ≤ rp then
    let r2 := rp - 2^21
    let rp2 := r2 + fpC
    if 2^21 ≤ rp2 then rp2 - 2^21 else r2
  else r

/-- `integer::Fp::new` (the struct stores the canonical `u32`). -/
def fpIntNew (v : ℕ) : ℕ := v

/-- `impl Add for integer::Fp`. -/
def fpIntAdd (a b : ℕ) : ℕ :=
  let s := a + b
  if fpMOD ≤ s then s - fpMOD else s

/-- `impl Mul for integer::Fp`: exact 64-bit product then reduce. -/
def fpIntMul (a b : ℕ) : ℕ := fpReduce (a * b)

/-- `impl From<integer::Fp> for u32`. -/
def fpIntToU32 (v : ℕ) : ℕ := v

/-- `single_precision::Fp::new(v)`: `v as f32`. -/
def fpSnew (v : ℕ) : ℚ := rnd 24 (v:ℚ)

/-- `single_precision::Fp::MODULUS`: `0b111111111111111110111 as f32`
(2097143 needs 21 significand bits, so the cast is exact). -/
def fpSMOD : ℚ := rnd 24 ((2097143:ℕ) : ℚ)

/-- `single_precision::Fp::MODULUS_INV = 1.0 / MODULUS`. -/
def fpSMODINV : ℚ := rnd 24 (1/fpSMOD)

/-- `impl Add for single_precision::Fp`. -/
def fpSadd (x y : ℚ) : ℚ :=
  let a := f32add x y
  if fpSMOD ≤ a then f32sub a fpSMOD else a

/-- `impl Mul for single_precision::Fp` (this variant uses `floor` for
the quotient estimate). -/
def fpSmul (x y : ℚ) : ℚ :=
  let h := f32mul x y
  let l := f32fma x y (-h)
  let b := f32mul h fpSMODINV
  let c := f32floor b
  let d := f32fma (-c) fpSMOD h
  let e := f32add d l
  if fpSMOD ≤ e then f32sub e fpSMOD else if e < 0 then f32add e fpSMOD else e

/-- `impl From<single_precision::Fp> for u32`: `value.0 as u32`
(saturating truncating cast). -/
def fpStoU32 (x : ℚ) : ℕ := min 4294967295 (qtrunc x).toNat

/-- `double_precision::Fp::new(v)`: `v as f64`. -/
def fpDnew (v : ℕ) : ℚ := rnd 53 (v:ℚ)

/-- `double_precision::Fp::MODULUS` as an `f64` (exact). -/
def fpDMOD : ℚ := rnd 53 ((2097143:ℕ) : ℚ)

/-- `double_precision::Fp::MODULUS_INV = 1.0 / MODULUS`. -/
def fpDMODINV : ℚ := rnd 53 (1/fpDMOD)

/-- `impl Mul for double_precision::Fp`: quotient estimate and
subtraction, with the final normalization left commented out in the
source (`TODO: depending on the rounding mode`). -/
def fpDmul (x y : ℚ) : ℚ :=
  let a := f64mul x y
  let b := f64mul a fpDMODINV
  let c := f64trunc b
  f64sub a (f64mul c fpDMOD)

/-- `impl From<double_precision::Fp> for u32`: `value.0 as u32`. -/
def fpDtoU32 (x : ℚ) : ℕ := min 4294967295 (qtrunc x).toNat

/-! ## Embedding of `src/field.rs`

Every operation body in this module is `todo!()`: invoking it panics and
never produces a value, modelled as `none`. -/

def fieldDoubleAdd (_x _y : ℚ) : Option ℚ := none

def fieldDoubleMul (_x _y : ℚ) : Option ℚ := none

def fieldDoubleFromU32 (_v : ℕ) : Option ℚ := none

def fieldSingleAdd (_x _y : ℚ × ℚ) : Option (ℚ × ℚ) := none

def fieldSingleMul (_x _y : ℚ × ℚ) : Option (ℚ × ℚ) := none

def fieldSingleFromU32 (_v : ℕ) : Option (ℚ × ℚ) := none

def fieldHalfAdd (_x _y : ℚ × ℚ × ℚ × ℚ) : Option (ℚ × ℚ × ℚ × ℚ) := none

def fieldHalfMul (_x _y : ℚ × ℚ × ℚ × ℚ) : Option (ℚ × ℚ × ℚ × ℚ) := none

def fieldHalfFromU32 (_v : ℕ) : Option (ℚ × ℚ × ℚ × ℚ) := none

/-! ## Pure-integer facts about the pseudo-Mersenne reduction -/

lemma fpReduce_correct (x : ℕ) (hx : x < 2^42) : fpReduce x = x % fpMOD := by
  unfold fpReduce fpC fpMOD
  dsimp only
  have h1 : x / 2^21 % 2^32 = x / 2^21 := by omega
  have h2 : x % 2^32 % 2^21 = x % 2^21 := by omega
  rw [h1, h2]
  set q := x / 2^21 with hq
  set b := q * (2097152 - 2097143) + x % 2^21 with hb
  have hxqb : x = q * 2097143 + b := by omega
  have hblt : b < 10 * 2^21 := by omega
  set q2 := b / 2^21 with hq2
  set r := q2 * (2097152 - 2097143) + b % 2^21 with hr
  have hbr : b = q2 * 2097143 + r := by omega
  have hrlt : r < 2^21 + 81 := by omega
  split_ifs <;> omega

/-- **C4.** For all canonical field elements `a, b ∈ [0, p)`, the integer
pseudo-Mersenne multiplication (exact 64-bit product, two folds, at most
two conditional corrections) returns exactly `(a*b) mod p`, hence a value
in canonical range; in particular `mul 0 0 = 0` and
`mul (p-1) (p-1) = 1`, and the two corrections present in the code always
suffice (the result is already canonical). -/
theorem claim_C4 :
    (∀ a b : ℕ, a < fpMOD → b < fpMOD →
      fpIntMul (fpIntNew a) (fpIntNew b) = (a * b) % fpMOD ∧
      fpIntMul (fpIntNew a) (fpIntNew b) < fpMOD) ∧
    fpIntMul (fpIntNew 0) (fpIntNew 0) = 0 ∧
    fpIntMul (fpIntNew (fpMOD - 1)) (fpIntNew (fpMOD - 1)) = 1 := by
  have main : ∀ a b : ℕ, a < fpMOD → b < fpMOD →
      fpIntMul (fpIntNew a) (fpIntNew b) = (a * b) % fpMOD ∧
      fpIntMul (fpIntNew a) (fpIntNew b) < fpMOD := by
    intro a b ha hb
    have hab : a * b < 2^42 := by
      calc a * b ≤ (fpMOD - 1) * (fpMOD - 1) :=
            Nat.mul_le_mul (by omega) (by omega)
        _ < 2^42 := by norm_num [fpMOD]
    have h1 : fpIntMul (fpIntNew a) (fpIntNew b) = (a * b) % fpMOD := by
      unfold fpIntMul fpIntNew
      exact fpReduce_correct (a * b) hab
    refine ⟨h1, ?_⟩
    rw [h1]
    have : 0 < fpMOD := by norm_num [fpMOD]
    exact Nat.mod_lt _ this
  refine ⟨main, ?_, ?_⟩
  · have := (main 0 0 (by norm_num [fpMOD]) (by norm_num [fpMOD])).1
    simpa using this
  · have := (main (fpMOD - 1) (fpMOD - 1)
      (by norm_num [fpMOD]) (by norm_num [fpMOD])).1
    rw [this]
    norm_num [fpMOD]

/-- Witness for C4 at a concrete input: `1000 * 3000 = 3000000 ≡ 902857`. -/
theorem claim_C4_witness :
    fpIntMul (fpIntNew 1000) (fpIntNew 3000) = 902857 := by
  have := (claim_C4.1 1000 3000 (by norm_num [fpMOD]) (by norm_num [fpMOD])).1
  rw [this]
  norm_num [fpMOD]

/-- **C5 (counterexample).** The claim asserts `p = 2^21 - 33 = 2097143`
and `C = 33`; both equalities are false of the code's constants
(`2^21 - 33 = 2097119 ≠ 2097143` and `C = 2097152 - 2097143 = 9`). -/
theorem claim_C5_counterexample : ¬ (fpMOD = 2^21 - 33 ∨ fpC = 33) := by
  norm_num [fpMOD, fpC]

/-- **C5 (amended).** The pseudo-Mersenne modulus is
`p = 2^21 - 9 = 2097143`; the fold constant is
`C = nextPowerOfTwo(p) - p = 9` (the next power of two being
`2^21 = 2097152`, since `2^20 < p ≤ 2^21`), and `2^21 ≡ C (mod p)`. -/
theorem claim_C5 :
    fpMOD = 2097143 ∧ fpMOD = 2^21 - 9 ∧ fpC = 9 ∧
    2^20 < fpMOD ∧ fpMOD ≤ 2^21 ∧ 2^21 % fpMOD = fpC := by
  norm_num [fpMOD, fpC]

/-- **C8.** Every unimplemented operation variant produces no value for
any input: the half-precision 4×8-limb wide multiply and all nine
`todo!()` field-wrapper operations are modelled as `none` (a Rust panic),
never a result. -/
theorem claim_C8 :
    (∀ x y, U32hMul x y = none) ∧
    (∀ x y, fieldSingleMul x y = none) ∧
    (∀ x y, fieldSingleAdd x y = none) ∧
    (∀ v, fieldSingleFromU32 v = none) ∧
    (∀ x y, fieldDoubleMul x y = none) ∧
    (∀ x y, fieldDoubleAdd x y = none) ∧
    (∀ v, fieldDoubleFromU32 v = none) ∧
    (∀ x y, fieldHalfMul x y = none) ∧
    (∀ x y, fieldHalfAdd x y = none) ∧
    (∀ v, fieldHalfFromU32 v = none) :=
  ⟨fun _ _ => rfl, fun _ _ => rfl, fun _ _ => rfl, fun _ => rfl,
   fun _ _ => rfl, fun _ _ => rfl, fun _ => rfl,
   fun _ _ => rfl, fun _ _ => rfl, fun _ => rfl⟩

/-- **C10.** The asymmetric wide-integer constructor is total and silently
truncates: for every `u32` value `v`, `U31::new(v) = U31::new(v mod 2^31)`
— bit 31 is discarded by the masking, not rejected. -/
theorem claim_C10 : ∀ v : ℕ, v < 2^32 → U31new v = U31new (v % 2^31) := by
  intro v _
  unfold U31new
  have h1 : v % 2048 = v % 2^31 % 2048 := by omega
  have h2 : v / 2048 % 1048576 = v % 2^31 / 2048 % 1048576 := by omega
  rw [h1, h2]

/-- Witness for C10: `0xFFFFFFFF` truncates to `0x7FFFFFFF`. -/
theorem claim_C10_witness : U31new 4294967295 = U31new (4294967295 % 2^31) :=
  claim_C10 4294967295 (by norm_num)

/-- Casting a natural below `2^p` into a `p`-bit float is exact. -/
lemma rnd_natCast_small (p : ℕ) (v : ℕ) (h : v < 2^p) (hp : (p:ℤ) ≤ 150) :
    rnd p ((v:ℕ):ℚ) = ((v:ℕ):ℚ) := by
  refine rnd_dyadic p (v:ℤ) 0 (by push_cast; ring) ?_ (by norm_num) (by omega)
  rw [abs_of_nonneg (by positivity : (0:ℤ) ≤ (v:ℤ))]
  exact_mod_cast h

/-- **C9.** Round-trip: converting a legal value into the representation
and back to a native unsigned integer is the identity, for the integer
pseudo-Mersenne field (`v < p`), the `f32` pseudo-Mersenne field
(`v < p`), and the half-precision `U8` limb type (`v < 256`). -/
theorem claim_C9 :
    (∀ v : ℕ, v < fpMOD → fpIntToU32 (fpIntNew v) = v) ∧
    (∀ v : ℕ, v < fpMOD → fpStoU32 (fpSnew v) = v) ∧
    (∀ v : ℕ, v < 256 → U8toU8 (U8new v) = v) := by
  refine ⟨fun v _ => rfl, ?_, ?_⟩
  · intro v hv
    have h1 : fpSnew v = ((v:ℕ):ℚ) := by
      unfold fpSnew
      exact rnd_natCast_small 24 v (by norm_num [fpMOD] at hv ⊢; omega) (by norm_num)
    unfold fpStoU32
    rw [h1, qtrunc_natCast]
    simp only [Int.toNat_natCast]
    have : v ≤ 4294967295 := by norm_num [fpMOD] at hv; omega
    omega
  · intro v hv
    have h1 : U8new v = ((v:ℕ):ℚ) := by
      unfold U8new
      rw [rnd_natCast_small 24 v (by omega) (by norm_num),
        rnd_natCast_small 11 v (by omega) (by norm_num)]
    unfold U8toU8
    rw [h1, qtrunc_natCast]
    simp only [Int.toNat_natCast]
    omega

/-- Witness for C9 at concrete inputs. -/
theorem claim_C9_witness :
    fpIntToU32 (fpIntNew 2097142) = 2097142 ∧
    fpStoU32 (fpSnew 2097142) = 2097142 ∧
    U8toU8 (U8new 255) = 255 :=
  ⟨claim_C9.1 2097142 (by norm_num [fpMOD]),
   claim_C9.2.1 2097142 (by norm_num [fpMOD]),
   claim_C9.2.2 255 (by norm_num)⟩

lemma nat_pow_cast_zpow (w : ℕ) : ((2^w : ℕ):ℚ) = (2:ℚ) ^ ((w:ℤ)) := by
  rw [zpow_natCast]
  push_cast
  ring

lemma nat_cast_lower (n : ℕ) : (((n:ℕ):ℚ) = 0) ∨ (2:ℚ) ^ (-(150:ℤ)) ≤ |((n:ℕ):ℚ)| := by
  have := int_cast_lower (n:ℤ)
  rcases this with h | h
  · left; exact_mod_cast h
  · right
    rwa [show (((n:ℤ)):ℚ) = ((n:ℕ):ℚ) by norm_num] at h

/-- Rounding a natural number yields a natural number. -/
lemma rnd_natCast_nat {p : ℕ} (hp1 : 0 < p) (hp2 : p ≤ 60) (n : ℕ)
    (hn : n ≤ 2 ^ 80) : ∃ m : ℕ, rnd p ((n:ℕ):ℚ) = ((m:ℕ):ℚ) := by
  obtain ⟨z, hz⟩ := rnd_intCast_int hp1 hp2 (n:ℤ) (by
    rw [abs_of_nonneg (by positivity : (0:ℤ) ≤ (n:ℤ))]
    exact_mod_cast hn)
  have hzq : rnd p ((n:ℕ):ℚ) = ((z:ℤ):ℚ) := by
    rwa [show (((n:ℤ)):ℚ) = ((n:ℕ):ℚ) by norm_num] at hz
  have hz0 : (0:ℚ) ≤ ((z:ℤ):ℚ) := by
    rw [← hzq]
    exact rnd_nonneg (by positivity)
  have hz0' : 0 ≤ z := by exact_mod_cast hz0
  refine ⟨z.toNat, ?_⟩
  rw [hzq]
  congr 1
  omega

/-- Error bound specialised to a natural-number argument, in `ℤ` form:
if `n < 2^(E+1)` then `rnd p n` is within `2^(E-p)` of `n`. -/
lemma rnd_nat_err {p : ℕ} (hp1 : 0 < p) (hp2 : p ≤ 60) (n : ℕ) (E : ℕ)
    (hn : n < 2 ^ (E+1)) (hpE : p ≤ E) (hE : E ≤ 79) :
    ∃ m : ℕ, rnd p ((n:ℕ):ℚ) = ((m:ℕ):ℚ) ∧ ((m:ℤ) - n).natAbs ≤ 2 ^ (E - p) := by
  obtain ⟨m, hm⟩ := rnd_natCast_nat hp1 hp2 n
    (lt_of_lt_of_le hn (Nat.pow_le_pow_right (by norm_num) (by omega))).le
  refine ⟨m, hm, ?_⟩
  have herr := rnd_err (p := p) (x := ((n:ℕ):ℚ)) (E:ℤ)
    (by
      have h1 : ((n:ℕ):ℚ) < ((2^(E+1) : ℕ):ℚ) := by exact_mod_cast hn
      rw [abs_of_nonneg (by positivity : (0:ℚ) ≤ ((n:ℕ):ℚ))]
      calc ((n:ℕ):ℚ) < ((2^(E+1) : ℕ):ℚ) := h1
        _ = (2:ℚ) ^ ((E:ℤ)+1) := by
            rw [nat_pow_cast_zpow (E+1)]
            congr 1)
    (nat_cast_lower n) (by omega)
  rw [hm] at herr
  have hEp : (2:ℚ) ^ ((E:ℤ) - (p:ℤ)) = ((2^(E-p) : ℕ):ℚ) := by
    rw [nat_pow_cast_zpow (E-p)]
    congr 1
    omega
  rw [hEp] at herr
  have herr' : |((m:ℤ):ℚ) - ((n:ℤ):ℚ)| ≤ (((2^(E-p) : ℕ):ℤ):ℚ) := by
    push_cast at herr ⊢
    convert herr using 2
  have herrZ : |(m:ℤ) - (n:ℤ)| ≤ ((2^(E-p) : ℕ):ℤ) := by
    have := herr'
    rw [show (((m:ℤ)):ℚ) - ((n:ℤ):ℚ) = ((((m:ℤ) - (n:ℤ)):ℤ):ℚ) by push_cast; ring] at this
    rw [← Int.cast_abs] at this
    exact_mod_cast this
  rw [Int.abs_eq_natAbs] at herrZ
  omega

lemma FRep_div_pow {p : ℕ} {x : ℚ} (h : FRep p x) (w : ℕ) :
    FRep p (x / ((2^w : ℕ):ℚ)) := by
  obtain ⟨m, k, hx, hm⟩ := h
  refine ⟨m, k - (w:ℤ), ?_, hm⟩
  rw [hx, zpow_sub₀ (by norm_num : (2:ℚ) ≠ 0)]
  rw [show (((2^w : ℕ)):ℚ) = (2:ℚ) ^ ((w:ℤ)) by push_cast [zpow_natCast]; ring]
  ring

/-- Dividing a representable natural by a power of two is exact. -/
lemma rnd_frep_nat_div_pow (p : ℕ) (n w : ℕ) (hrep : FRep p ((n:ℕ):ℚ))
    (hn : n ≤ 2^100) (hw : w ≤ 49) :
    rnd p (((n:ℕ):ℚ) / ((2^w : ℕ):ℚ)) = ((n:ℕ):ℚ) / ((2^w : ℕ):ℚ) := by
  apply rnd_frep (FRep_div_pow hrep w)
  · rcases Nat.eq_zero_or_pos n with rfl | hn0
    · left; norm_num
    · right
      have h1 : (1:ℚ) ≤ (n:ℚ) := by exact_mod_cast hn0
      have h2 : (0:ℚ) < ((2^w : ℕ):ℚ) := by positivity
      have h3 : ((2^w : ℕ):ℚ) ≤ ((2^49 : ℕ):ℚ) := by
        exact_mod_cast Nat.pow_le_pow_right (by norm_num) hw
      rw [abs_of_nonneg (by positivity)]
      calc (2:ℚ) ^ (-(150:ℤ)) ≤ 1 / ((2^49 : ℕ):ℚ) := by norm_num
        _ ≤ 1 / ((2^w : ℕ):ℚ) := one_div_le_one_div_of_le h2 h3
        _ ≤ (n:ℚ) / ((2^w : ℕ):ℚ) := by
            apply div_le_div_of_nonneg_right h1 h2.le
  · rw [abs_of_nonneg (by positivity)]
    have h1 : ((n:ℕ):ℚ) ≤ ((2^100 : ℕ):ℚ) := by exact_mod_cast hn
    have h2 : (1:ℚ) ≤ ((2^w : ℕ):ℚ) := by
      exact_mod_cast Nat.one_le_two_pow
    calc ((n:ℕ):ℚ) / ((2^w : ℕ):ℚ) ≤ ((n:ℕ):ℚ) / 1 := by
          apply div_le_div_of_nonneg_left (by positivity) (by norm_num) h2
      _ = ((n:ℕ):ℚ) := by ring
      _ ≤ ((2^100 : ℕ):ℚ) := h1
      _ < (2:ℚ) ^ (150:ℤ) := by
          push_cast
          rw [show ((2:ℚ) ^ (150:ℤ)) = (2:ℚ) ^ (150:ℕ) from zpow_natCast 2 150]
          norm_num

lemma int_nat_cast_q {z : ℤ} {n : ℕ} (h : z = (n:ℤ)) : ((z:ℤ):ℚ) = ((n:ℕ):ℚ) := by
  rw [h, Int.cast_natCast]

lemma nat_cast_abs_lt150 (n : ℕ) (h : n ≤ 2^100) : |((n:ℕ):ℚ)| < (2:ℚ) ^ (150:ℤ) := by
  rw [abs_of_nonneg (by positivity)]
  calc ((n:ℕ):ℚ) ≤ ((2^100 : ℕ):ℚ) := by exact_mod_cast h
    _ = (2:ℚ) ^ ((100:ℕ):ℤ) := nat_pow_cast_zpow 100
    _ < (2:ℚ) ^ (150:ℤ) := zpow_lt_zpow_right₀ (by norm_num) (by norm_num)

lemma two_zpow_neg_nat (w : ℕ) : (2:ℚ) ^ (-(w:ℤ)) = 1 / ((2^w : ℕ):ℚ) := by
  rw [zpow_neg, nat_pow_cast_zpow, one_div]

lemma nat_split_cast (n d : ℕ) :
    ((n:ℕ):ℚ) = ((d:ℕ):ℚ) * ((n / d : ℕ):ℚ) + ((n % d : ℕ):ℚ) := by
  have hsplit : (n:ℕ) = d * (n / d) + n % d := (Nat.div_add_mod n d).symm
  exact_mod_cast congrArg (fun z : ℕ => (z : ℚ)) hsplit

/-- Correctness of the `f32`-simulated 16-bit limb multiply. -/
lemma U16mul_correct (a b : ℕ) (ha : a < 65536) (hb : b < 65536) :
    U16mul (U16new a) (U16new b) = U16new ((a * b) % 65536) := by
  have hna : U16new a = ((a:ℕ):ℚ) := rnd_natCast_small 24 a (by omega) (by norm_num)
  have hnb : U16new b = ((b:ℕ):ℚ) := rnd_natCast_small 24 b (by omega) (by norm_num)
  have hprod : ((a:ℕ):ℚ) * ((b:ℕ):ℚ) = (((a*b : ℕ)):ℚ) := by push_cast; ring
  have hab : a * b < 2 ^ 32 := by
    calc a * b ≤ 65535 * 65535 := Nat.mul_le_mul (by omega) (by omega)
      _ < 2 ^ 32 := by norm_num
  obtain ⟨hN, hh, herr0⟩ := rnd_nat_err (p := 24) (by norm_num) (by norm_num) (a*b) 31
    hab (by norm_num) (by norm_num)
  have herr : ((hN:ℤ) - (a*b : ℕ)).natAbs ≤ 128 := by simpa using herr0
  have hh' : f32mul ((a:ℕ):ℚ) ((b:ℕ):ℚ) = ((hN:ℕ):ℚ) := by
    unfold f32mul
    rw [hprod]
    exact hh
  have hNle : hN ≤ 2^32 + 128 := by omega
  have hrep : FRep 24 ((hN:ℕ):ℚ) := by
    have h1 := rnd_rep (p := 24) (x := ((a*b : ℕ):ℚ)) (by norm_num)
      (nat_cast_lower _) (nat_cast_abs_lt150 _ (by omega))
    rwa [hh] at h1
  have hl : f32fma ((a:ℕ):ℚ) ((b:ℕ):ℚ) (-((hN:ℕ):ℚ))
      = (((a*b : ℕ):ℚ)) - ((hN:ℕ):ℚ) := by
    unfold f32fma
    have harg : ((a:ℕ):ℚ) * ((b:ℕ):ℚ) + -((hN:ℕ):ℚ)
        = ((((a*b:ℕ):ℤ) - (hN:ℤ) : ℤ):ℚ) := by push_cast; ring
    have hmb : |((a*b:ℕ):ℤ) - (hN:ℤ)| < 2^24 := by
      rw [Int.abs_eq_natAbs]
      omega
    rw [harg]
    rw [rnd_dyadic 24 (((a*b:ℕ):ℤ) - (hN:ℤ)) 0 (by push_cast; ring) hmb
      (by norm_num) (by norm_num)]
    push_cast
    ring
  have hinv : U16MODINV = 1/65536 := by
    unfold U16MODINV
    rw [rnd_dyadic 24 1 (-16)
      (by rw [show (-16 : ℤ) = -((16:ℕ):ℤ) by norm_num, two_zpow_neg_nat 16]; norm_num)
      (by norm_num) (by norm_num) (by norm_num)]
  have hb' : f32mul ((hN:ℕ):ℚ) U16MODINV = ((hN:ℕ):ℚ) / ((2^16 : ℕ):ℚ) := by
    rw [hinv]
    unfold f32mul
    have h1 : ((hN:ℕ):ℚ) * (1/65536) = ((hN:ℕ):ℚ) / ((2^16:ℕ):ℚ) := by
      push_cast
      ring
    rw [h1]
    exact rnd_frep_nat_div_pow 24 hN 16 hrep (by omega) (by norm_num)
  have hc : f32trunc (((hN:ℕ):ℚ) / ((2^16 : ℕ):ℚ)) = ((hN / 2^16 : ℕ):ℚ) := by
    unfold f32trunc
    rw [qtrunc_natCast_div hN (2^16)]
    exact_mod_cast rfl
  have hd : f32fma (-((hN / 2^16 : ℕ):ℚ)) U16MOD ((hN:ℕ):ℚ) = ((hN % 2^16 : ℕ):ℚ) := by
    unfold f32fma U16MOD
    have harg : -((hN / 2^16 : ℕ):ℚ) * 65536 + ((hN:ℕ):ℚ) = ((hN % 2^16 : ℕ):ℚ) := by
      have h1 := nat_split_cast hN (2^16)
      have h2 : (((2^16 : ℕ)):ℚ) = 65536 := by norm_num
      rw [h2] at h1
      linarith
    rw [harg, rnd_natCast_small 24 _ (by omega) (by norm_num)]
  set E : ℤ := ((hN % 2^16 : ℕ):ℤ) + ((a*b : ℕ):ℤ) - (hN:ℤ) with hEdef
  have hEbound : -129 < E ∧ E < 65536 + 129 := by
    constructor <;> omega
  have he : f32add ((hN % 2^16 : ℕ):ℚ) ((((a*b : ℕ):ℚ)) - ((hN:ℕ):ℚ)) = ((E:ℤ):ℚ) := by
    unfold f32add
    have harg : ((hN % 2^16 : ℕ):ℚ) + ((((a*b : ℕ):ℚ)) - ((hN:ℕ):ℚ)) = ((E:ℤ):ℚ) := by
      rw [hEdef, Int.cast_sub, Int.cast_add, Int.cast_natCast, Int.cast_natCast,
        Int.cast_natCast]
      ring
    rw [harg]
    exact rnd_dyadic 24 E 0 (by ring)
      (by rw [abs_lt]; constructor <;> omega) (by norm_num) (by norm_num)
  have hgoal : U16new ((a*b) % 65536) = (((a*b % 65536 : ℕ)):ℚ) :=
    rnd_natCast_small 24 _ (by omega) (by norm_num)
  unfold U16mul
  rw [hna, hnb]
  dsimp only
  rw [hh', hb', hc, hd, hl, he, hgoal]
  have hmodc : ((a * b % 65536 : ℕ):ℤ) = E % 65536 := by omega
  split_ifs with h1 h2
  · -- e ≥ M : subtract M once
    unfold U16MOD at h1
    have h1' : (65536:ℤ) ≤ E := by exact_mod_cast h1
    unfold f32sub U16MOD
    have harg : ((E:ℤ):ℚ) - 65536 = (((E - 65536 : ℤ)):ℚ) := by push_cast; ring
    rw [harg, rnd_dyadic 24 (E - 65536) 0 (by push_cast; ring)
      (by rw [abs_lt]; constructor <;> omega) (by norm_num) (by norm_num)]
    exact int_nat_cast_q (by omega : E - 65536 = ((a * b % 65536 : ℕ):ℤ))
  · -- e < 0 : add M once
    have h2' : E < 0 := by exact_mod_cast h2
    unfold f32add U16MOD
    have harg : ((E:ℤ):ℚ) + 65536 = (((E + 65536 : ℤ)):ℚ) := by push_cast; ring
    rw [harg, rnd_dyadic 24 (E + 65536) 0 (by push_cast; ring)
      (by rw [abs_lt]; constructor <;> omega) (by norm_num) (by norm_num)]
    exact int_nat_cast_q (by omega : E + 65536 = ((a * b % 65536 : ℕ):ℤ))
  · -- already in range
    unfold U16MOD at h1
    have h1' : ¬ (65536:ℤ) ≤ E := fun hcon => h1 (by exact_mod_cast hcon)
    have h2' : ¬ E < 0 := fun hcon => h2 (by exact_mod_cast hcon)
    exact int_nat_cast_q (by omega : E = ((a * b % 65536 : ℕ):ℤ))

/-- Correctness of the `f64`-simulated 32-bit limb multiply. -/
lemma U32dMul_correct (a b : ℕ) (ha : a < 4294967296) (hb : b < 4294967296) :
    U32dMul (U32dNew a) (U32dNew b) = U32dNew ((a * b) % 4294967296) := by
  have hna : U32dNew a = ((a:ℕ):ℚ) := rnd_natCast_small 53 a (by omega) (by norm_num)
  have hnb : U32dNew b = ((b:ℕ):ℚ) := rnd_natCast_small 53 b (by omega) (by norm_num)
  have hprod : ((a:ℕ):ℚ) * ((b:ℕ):ℚ) = (((a*b : ℕ)):ℚ) := by push_cast; ring
  have hab : a * b < 2 ^ 64 := by
    calc a * b ≤ 4294967295 * 4294967295 := Nat.mul_le_mul (by omega) (by omega)
      _ < 2 ^ 64 := by norm_num
  obtain ⟨hN, hh, herr0⟩ := rnd_nat_err (p := 53) (by norm_num) (by norm_num) (a*b) 63
    hab (by norm_num) (by norm_num)
  have herr : ((hN:ℤ) - (a*b : ℕ)).natAbs ≤ 1024 := by simpa using herr0
  have hh' : f64mul ((a:ℕ):ℚ) ((b:ℕ):ℚ) = ((hN:ℕ):ℚ) := by
    unfold f64mul
    rw [hprod]
    exact hh
  have hNle : hN ≤ 2^64 + 1024 := by omega
  have hrep : FRep 53 ((hN:ℕ):ℚ) := by
    have h1 := rnd_rep (p := 53) (x := ((a*b : ℕ):ℚ)) (by norm_num)
      (nat_cast_lower _) (nat_cast_abs_lt150 _ (by omega))
    rwa [hh] at h1
  have hl : f64fma ((a:ℕ):ℚ) ((b:ℕ):ℚ) (-((hN:ℕ):ℚ))
      = (((a*b : ℕ):ℚ)) - ((hN:ℕ):ℚ) := by
    unfold f64fma
    have harg : ((a:ℕ):ℚ) * ((b:ℕ):ℚ) + -((hN:ℕ):ℚ)
        = ((((a*b:ℕ):ℤ) - (hN:ℤ) : ℤ):ℚ) := by push_cast; ring
    have hmb : |((a*b:ℕ):ℤ) - (hN:ℤ)| < 2^53 := by
      rw [Int.abs_eq_natAbs]
      omega
    rw [harg]
    rw [rnd_dyadic 53 (((a*b:ℕ):ℤ) - (hN:ℤ)) 0 (by push_cast; ring) hmb
      (by norm_num) (by norm_num)]
    push_cast
    ring
  have hinv : U32dMODINV = 1/4294967296 := by
    unfold U32dMODINV
    rw [rnd_dyadic 53 1 (-32)
      (by rw [show (-32 : ℤ) = -((32:ℕ):ℤ) by norm_num, two_zpow_neg_nat 32]; norm_num)
      (by norm_num) (by norm_num) (by norm_num)]
  have hb' : f64mul ((hN:ℕ):ℚ) U32dMODINV = ((hN:ℕ):ℚ) / ((2^32 : ℕ):ℚ) := by
    rw [hinv]
    unfold f64mul
    have h1 : ((hN:ℕ):ℚ) * (1/4294967296) = ((hN:ℕ):ℚ) / ((2^32:ℕ):ℚ) := by
      push_cast
      ring
    rw [h1]
    exact rnd_frep_nat_div_pow 53 hN 32 hrep (by omega) (by norm_num)
  have hc : f64trunc (((hN:ℕ):ℚ) / ((2^32 : ℕ):ℚ)) = ((hN / 2^32 : ℕ):ℚ) := by
    unfold f64trunc
    rw [qtrunc_natCast_div hN (2^32)]
    exact_mod_cast rfl
  have hd : f64fma (-((hN / 2^32 : ℕ):ℚ)) U32dMOD ((hN:ℕ):ℚ) = ((hN % 2^32 : ℕ):ℚ) := by
    unfold f64fma U32dMOD
    have harg : -((hN / 2^32 : ℕ):ℚ) * 4294967296 + ((hN:ℕ):ℚ) = ((hN % 2^32 : ℕ):ℚ) := by
      have h1 := nat_split_cast hN (2^32)
      have h2 : (((2^32 : ℕ)):ℚ) = 4294967296 := by norm_num
      rw [h2] at h1
      linarith
    rw [harg, rnd_natCast_small 53 _ (by omega) (by norm_num)]
  set E : ℤ := ((hN % 2^32 : ℕ):ℤ) + ((a*b : ℕ):ℤ) - (hN:ℤ) with hEdef
  have hEbound : -1025 < E ∧ E < 4294967296 + 1025 := by
    constructor <;> omega
  have he : f64add ((hN % 2^32 : ℕ):ℚ) ((((a*b : ℕ):ℚ)) - ((hN:ℕ):ℚ)) = ((E:ℤ):ℚ) := by
    unfold f64add
    have harg : ((hN % 2^32 : ℕ):ℚ) + ((((a*b : ℕ):ℚ)) - ((hN:ℕ):ℚ)) = ((E:ℤ):ℚ) := by
      rw [hEdef, Int.cast_sub, Int.cast_add, Int.cast_natCast, Int.cast_natCast,
        Int.cast_natCast]
      ring
    rw [harg]
    exact rnd_dyadic 53 E 0 (by ring)
      (by rw [abs_lt]; constructor <;> omega) (by norm_num) (by norm_num)
  have hgoal : U32dNew ((a*b) % 4294967296) = (((a*b % 4294967296 : ℕ)):ℚ) :=
    rnd_natCast_small 53 _ (by omega) (by norm_num)
  unfold U32dMul
  rw [hna, hnb]
  dsimp only
  rw [hh', hb', hc, hd, hl, he, hgoal]
  split_ifs with h1 h2
  · unfold U32dMOD at h1
    have h1' : (4294967296:ℤ) ≤ E := by exact_mod_cast h1
    unfold f64sub U32dMOD
    have harg : ((E:ℤ):ℚ) - 4294967296 = (((E - 4294967296 : ℤ)):ℚ) := by push_cast; ring
    rw [harg, rnd_dyadic 53 (E - 4294967296) 0 (by push_cast; ring)
      (by rw [abs_lt]; constructor <;> omega) (by norm_num) (by norm_num)]
    exact int_nat_cast_q (by omega : E - 4294967296 = ((a * b % 4294967296 : ℕ):ℤ))
  · have h2' : E < 0 := by exact_mod_cast h2
    unfold f64add U32dMOD
    have harg : ((E:ℤ):ℚ) + 4294967296 = (((E + 4294967296 : ℤ)):ℚ) := by push_cast; ring
    rw [harg, rnd_dyadic 53 (E + 4294967296) 0 (by push_cast; ring)
      (by rw [abs_lt]; constructor <;> omega) (by norm_num) (by norm_num)]
    exact int_nat_cast_q (by omega : E + 4294967296 = ((a * b % 4294967296 : ℕ):ℤ))
  · unfold U32dMOD at h1
    have h1' : ¬ (4294967296:ℤ) ≤ E := fun hcon => h1 (by exact_mod_cast hcon)
    have h2' : ¬ E < 0 := fun hcon => h2 (by exact_mod_cast hcon)
    exact int_nat_cast_q (by omega : E = ((a * b % 4294967296 : ℕ):ℤ))

lemma U8MOD_val : U8MOD = 256 := by
  unfold U8MOD
  rw [show (256:ℚ) = ((256:ℕ):ℚ) by norm_num]
  rw [rnd_natCast_small 24 256 (by norm_num) (by norm_num)]
  rw [rnd_natCast_small 11 256 (by norm_num) (by norm_num)]

lemma U8MODINV_val : U8MODINV = 1/256 := by
  unfold U8MODINV
  rw [rnd_dyadic 24 1 (-8)
    (by rw [show (-8 : ℤ) = -((8:ℕ):ℤ) by norm_num, two_zpow_neg_nat 8]; norm_num)
    (by norm_num) (by norm_num) (by norm_num)]
  rw [rnd_dyadic 11 1 (-8)
    (by rw [show (-8 : ℤ) = -((8:ℕ):ℤ) by norm_num, two_zpow_neg_nat 8]; norm_num)
    (by norm_num) (by norm_num) (by norm_num)]

lemma U8new_small (v : ℕ) (hv : v < 256) : U8new v = ((v:ℕ):ℚ) := by
  unfold U8new
  rw [rnd_natCast_small 24 v (by omega) (by norm_num),
    rnd_natCast_small 11 v (by omega) (by norm_num)]

/-- Correctness of the `f16`-simulated 8-bit limb multiply. -/
lemma U8mul_correct (a b : ℕ) (ha : a < 256) (hb : b < 256) :
    U8mul (U8new a) (U8new b) = U8new ((a * b) % 256) := by
  have hna : U8new a = ((a:ℕ):ℚ) := U8new_small a ha
  have hnb : U8new b = ((b:ℕ):ℚ) := U8new_small b hb
  have hprod : ((a:ℕ):ℚ) * ((b:ℕ):ℚ) = (((a*b : ℕ)):ℚ) := by push_cast; ring
  have hab : a * b < 2 ^ 16 := by
    calc a * b ≤ 255 * 255 := Nat.mul_le_mul (by omega) (by omega)
      _ < 2 ^ 16 := by norm_num
  obtain ⟨hN, hh, herr0⟩ := rnd_nat_err (p := 11) (by norm_num) (by norm_num) (a*b) 15
    hab (by norm_num) (by norm_num)
  have herr : ((hN:ℤ) - (a*b : ℕ)).natAbs ≤ 16 := by simpa using herr0
  have hh' : f16mul ((a:ℕ):ℚ) ((b:ℕ):ℚ) = ((hN:ℕ):ℚ) := by
    unfold f16mul
    rw [hprod]
    exact hh
  have hNle : hN ≤ 2^16 + 16 := by omega
  have hrep : FRep 11 ((hN:ℕ):ℚ) := by
    have h1 := rnd_rep (p := 11) (x := ((a*b : ℕ):ℚ)) (by norm_num)
      (nat_cast_lower _) (nat_cast_abs_lt150 _ (by omega))
    rwa [hh] at h1
  have hl : mad16 ((a:ℕ):ℚ) ((b:ℕ):ℚ) (-((hN:ℕ):ℚ))
      = (((a*b : ℕ):ℚ)) - ((hN:ℕ):ℚ) := by
    unfold mad16 f32fma
    have harg : ((a:ℕ):ℚ) * ((b:ℕ):ℚ) + -((hN:ℕ):ℚ)
        = ((((a*b:ℕ):ℤ) - (hN:ℤ) : ℤ):ℚ) := by push_cast; ring
    have hmb24 : |((a*b:ℕ):ℤ) - (hN:ℤ)| < 2^24 := by
      rw [Int.abs_eq_natAbs]
      omega
    have hmb11 : |((a*b:ℕ):ℤ) - (hN:ℤ)| < 2^11 := by
      rw [Int.abs_eq_natAbs]
      omega
    rw [harg]
    rw [rnd_dyadic 24 (((a*b:ℕ):ℤ) - (hN:ℤ)) 0 (by push_cast; ring) hmb24
      (by norm_num) (by norm_num)]
    rw [rnd_dyadic 11 (((a*b:ℕ):ℤ) - (hN:ℤ)) 0 (by push_cast; ring) hmb11
      (by norm_num) (by norm_num)]
    push_cast
    ring
  have hb' : f16mul ((hN:ℕ):ℚ) (1/256) = ((hN:ℕ):ℚ) / ((2^8 : ℕ):ℚ) := by
    unfold f16mul
    have h1 : ((hN:ℕ):ℚ) * (1/256) = ((hN:ℕ):ℚ) / ((2^8:ℕ):ℚ) := by
      push_cast
      ring
    rw [h1]
    exact rnd_frep_nat_div_pow 11 hN 8 hrep (by omega) (by norm_num)
  have hc : f16trunc (((hN:ℕ):ℚ) / ((2^8 : ℕ):ℚ)) = ((hN / 2^8 : ℕ):ℚ) := by
    unfold f16trunc
    rw [qtrunc_natCast_div hN (2^8)]
    exact_mod_cast rfl
  have hd : mad16 (-((hN / 2^8 : ℕ):ℚ)) 256 ((hN:ℕ):ℚ) = ((hN % 2^8 : ℕ):ℚ) := by
    unfold mad16 f32fma
    have harg : -((hN / 2^8 : ℕ):ℚ) * 256 + ((hN:ℕ):ℚ) = ((hN % 2^8 : ℕ):ℚ) := by
      have h1 := nat_split_cast hN (2^8)
      have h2 : (((2^8 : ℕ)):ℚ) = 256 := by norm_num
      rw [h2] at h1
      linarith
    rw [harg, rnd_natCast_small 24 _ (by omega) (by norm_num),
      rnd_natCast_small 11 _ (by omega) (by norm_num)]
  set E : ℤ := ((hN % 2^8 : ℕ):ℤ) + ((a*b : ℕ):ℤ) - (hN:ℤ) with hEdef
  have hEbound : -17 < E ∧ E < 256 + 17 := by
    constructor <;> omega
  have he : f16add ((hN % 2^8 : ℕ):ℚ) ((((a*b : ℕ):ℚ)) - ((hN:ℕ):ℚ)) = ((E:ℤ):ℚ) := by
    unfold f16add
    have harg : ((hN % 2^8 : ℕ):ℚ) + ((((a*b : ℕ):ℚ)) - ((hN:ℕ):ℚ)) = ((E:ℤ):ℚ) := by
      rw [hEdef, Int.cast_sub, Int.cast_add, Int.cast_natCast, Int.cast_natCast,
        Int.cast_natCast]
      ring
    rw [harg]
    exact rnd_dyadic 11 E 0 (by ring)
      (by rw [abs_lt]; constructor <;> omega) (by norm_num) (by norm_num)
  have hgoal : U8new ((a*b) % 256) = (((a*b % 256 : ℕ)):ℚ) :=
    U8new_small _ (by omega)
  unfold U8mul
  rw [hna, hnb]
  dsimp only
  rw [U8MODINV_val, U8MOD_val, hh', hb', hc, hd, hl, he, hgoal]
  split_ifs with h1 h2
  · have h1' : (256:ℤ) ≤ E := by exact_mod_cast h1
    unfold f16sub
    have harg : ((E:ℤ):ℚ) - 256 = (((E - 256 : ℤ)):ℚ) := by push_cast; ring
    rw [harg, rnd_dyadic 11 (E - 256) 0 (by push_cast; ring)
      (by rw [abs_lt]; constructor <;> omega) (by norm_num) (by norm_num)]
    exact int_nat_cast_q (by omega : E - 256 = ((a * b % 256 : ℕ):ℤ))
  · have h2' : E < 0 := by exact_mod_cast h2
    unfold f16add
    have harg : ((E:ℤ):ℚ) + 256 = (((E + 256 : ℤ)):ℚ) := by push_cast; ring
    rw [harg, rnd_dyadic 11 (E + 256) 0 (by push_cast; ring)
      (by rw [abs_lt]; constructor <;> omega) (by norm_num) (by norm_num)]
    exact int_nat_cast_q (by omega : E + 256 = ((a * b % 256 : ℕ):ℤ))
  · have h1' : ¬ (256:ℤ) ≤ E := fun hcon => h1 (by exact_mod_cast hcon)
    have h2' : ¬ E < 0 := fun hcon => h2 (by exact_mod_cast hcon)
    exact int_nat_cast_q (by omega : E = ((a * b % 256 : ℕ):ℤ))

/-- **C1.** For every pair of pre-reduced limb values `a, b ∈ [0, M)`, the
floating-point limb multiply (FMA two-product, truncated reciprocal
quotient estimate, FMA remainder recovery, one normalization correction)
returns exactly `(a*b) mod M`: with `M = 256` in the half-precision
(`f16`) format (also at the `u8` conversion level), `M = 65536` in the
single-precision (`f32`) format, and `M = 2^32` in the double-precision
(`f64`) format. -/
theorem claim_C1 :
    (∀ a b : ℕ, a < 256 → b < 256 →
      U8mul (U8new a) (U8new b) = U8new ((a * b) % 256) ∧
      U8toU8 (U8mul (U8new a) (U8new b)) = (a * b) % 256) ∧
    (∀ a b : ℕ, a < 65536 → b < 65536 →
      U16mul (U16new a) (U16new b) = U16new ((a * b) % 65536)) ∧
    (∀ a b : ℕ, a < 4294967296 → b < 4294967296 →
      U32dMul (U32dNew a) (U32dNew b) = U32dNew ((a * b) % 4294967296)) := by
  refine ⟨?_, U16mul_correct, U32dMul_correct⟩
  intro a b ha hb
  refine ⟨U8mul_correct a b ha hb, ?_⟩
  rw [U8mul_correct a b ha hb, U8new_small _ (by omega)]
  unfold U8toU8
  rw [qtrunc_natCast]
  simp only [Int.toNat_natCast]
  omega

/-- Witness for C1: `255 * 255 ≡ 1 (mod 256)`, `65535 * 3 ≡ 65533
(mod 2^16)`, `4294967295 * 2 ≡ 4294967294 (mod 2^32)`. -/
theorem claim_C1_witness :
    U8mul (U8new 255) (U8new 255) = U8new 1 ∧
    U8toU8 (U8mul (U8new 255) (U8new 255)) = 1 ∧
    U16mul (U16new 65535) (U16new 3) = U16new 65533 ∧
    U32dMul (U32dNew 4294967295) (U32dNew 2) = U32dNew 4294967294 := by
  have h1 := (claim_C1.1 255 255 (by norm_num) (by norm_num)).1
  have h2 := (claim_C1.1 255 255 (by norm_num) (by norm_num)).2
  have h3 := claim_C1.2.1 65535 3 (by norm_num) (by norm_num)
  have h4 := claim_C1.2.2 4294967295 2 (by norm_num) (by norm_num)
  norm_num at h1 h2 h3 h4
  exact ⟨h1, h2, h3, h4⟩

lemma U16add_correct (a b : ℕ) (ha : a < 65536) (hb : b < 65536) :
    U16add (U16new a) (U16new b) = U16new ((a + b) % 65536) := by
  have hna : U16new a = ((a:ℕ):ℚ) := rnd_natCast_small 24 a (by omega) (by norm_num)
  have hnb : U16new b = ((b:ℕ):ℚ) := rnd_natCast_small 24 b (by omega) (by norm_num)
  have hsum : f32add ((a:ℕ):ℚ) ((b:ℕ):ℚ) = (((a+b : ℕ)):ℚ) := by
    unfold f32add
    rw [show ((a:ℕ):ℚ) + ((b:ℕ):ℚ) = (((a+b:ℕ)):ℚ) by push_cast; ring]
    exact rnd_natCast_small 24 _ (by omega) (by norm_num)
  have hgoal : U16new ((a+b) % 65536) = (((a+b) % 65536 : ℕ):ℚ) :=
    rnd_natCast_small 24 _ (by omega) (by norm_num)
  unfold U16add U16MOD
  dsimp only
  rw [hna, hnb, hsum, hgoal]
  split_ifs with h1
  · have h1' : 65536 ≤ a + b := by exact_mod_cast h1
    unfold f32sub
    rw [show (((a+b:ℕ)):ℚ) - 65536 = (((a + b - 65536 : ℕ)):ℚ) by
      push_cast [h1']; ring]
    rw [rnd_natCast_small 24 _ (by omega) (by norm_num)]
    rw [show a + b - 65536 = (a + b) % 65536 from by omega]
  · have h1' : ¬ 65536 ≤ a + b := fun hcon => h1 (by exact_mod_cast hcon)
    rw [Nat.mod_eq_of_lt (by omega)]

lemma carryStep (s t : ℕ) (hs : s < 512) (ht : t < 511) :
    (if (256:ℚ) ≤ ((s:ℕ):ℚ) then (f16sub ((s:ℕ):ℚ) 256, f16add ((t:ℕ):ℚ) 1)
     else (((s:ℕ):ℚ), ((t:ℕ):ℚ)))
    = (((s % 256 : ℕ):ℚ), ((t + s / 256 : ℕ):ℚ)) := by
  by_cases h : 256 ≤ s
  · rw [if_pos (by exact_mod_cast h : (256:ℚ) ≤ ((s:ℕ):ℚ))]
    have h1 : f16sub ((s:ℕ):ℚ) 256 = ((s - 256 : ℕ):ℚ) := by
      unfold f16sub
      rw [show ((s:ℕ):ℚ) - 256 = ((s - 256 : ℕ):ℚ) by push_cast [h]; ring]
      exact rnd_natCast_small 11 _ (by omega) (by norm_num)
    have h2 : f16add ((t:ℕ):ℚ) 1 = ((t + 1 : ℕ):ℚ) := by
      unfold f16add
      rw [show ((t:ℕ):ℚ) + 1 = ((t + 1 : ℕ):ℚ) by push_cast; ring]
      exact rnd_natCast_small 11 _ (by omega) (by norm_num)
    rw [h1, h2, show s - 256 = s % 256 from by omega, show t + 1 = t + s / 256 from by omega]
  · rw [if_neg (fun hcon => h (by exact_mod_cast hcon)),
      show s % 256 = s from by omega, show t + s / 256 = t from by omega]

lemma carryLast (s : ℕ) (hs : s < 512) :
    (if (256:ℚ) ≤ ((s:ℕ):ℚ) then f16sub ((s:ℕ):ℚ) 256 else ((s:ℕ):ℚ))
    = ((s % 256 : ℕ):ℚ) := by
  by_cases h : 256 ≤ s
  · rw [if_pos (by exact_mod_cast h : (256:ℚ) ≤ ((s:ℕ):ℚ))]
    unfold f16sub
    rw [show ((s:ℕ):ℚ) - 256 = ((s - 256 : ℕ):ℚ) by push_cast [h]; ring]
    rw [rnd_natCast_small 11 _ (by omega) (by norm_num)]
    rw [show s - 256 = s % 256 from by omega]
  · rw [if_neg (fun hcon => h (by exact_mod_cast hcon)),
      show s % 256 = s from by omega]

lemma U32hAdd_correct (a b : ℕ) (ha : a < 2^32) (hb : b < 2^32) :
    U32hAdd (U32hNew a) (U32hNew b) = U32hNew ((a + b) % 2^32) := by
  unfold U32hNew U32hAdd
  rw [U8new_small (a % 256) (by omega), U8new_small (a / 2^8 % 256) (by omega),
    U8new_small (a / 2^16 % 256) (by omega), U8new_small (a / 2^24 % 256) (by omega),
    U8new_small (b % 256) (by omega), U8new_small (b / 2^8 % 256) (by omega),
    U8new_small (b / 2^16 % 256) (by omega), U8new_small (b / 2^24 % 256) (by omega),
    U8new_small ((a+b) % 2^32 % 256) (by omega),
    U8new_small ((a+b) % 2^32 / 2^8 % 256) (by omega),
    U8new_small ((a+b) % 2^32 / 2^16 % 256) (by omega),
    U8new_small ((a+b) % 2^32 / 2^24 % 256) (by omega)]
  dsimp only
  rw [U8MOD_val]
  have hadd : ∀ m n : ℕ, m < 256 → n < 256 →
      f16add ((m:ℕ):ℚ) ((n:ℕ):ℚ) = ((m + n : ℕ):ℚ) := by
    intro m n hm hn
    unfold f16add
    rw [show ((m:ℕ):ℚ) + ((n:ℕ):ℚ) = ((m + n : ℕ):ℚ) by push_cast; ring]
    exact rnd_natCast_small 11 _ (by omega) (by norm_num)
  rw [hadd _ _ (by omega) (by omega), hadd _ _ (by omega) (by omega),
    hadd _ _ (by omega) (by omega), hadd _ _ (by omega) (by omega)]
  set s0 := a % 256 + b % 256 with hs0
  set s1 := a / 2^8 % 256 + b / 2^8 % 256 with hs1
  set s2 := a / 2^16 % 256 + b / 2^16 % 256 with hs2
  set s3 := a / 2^24 % 256 + b / 2^24 % 256 with hs3
  rw [carryStep s0 s1 (by omega) (by omega)]
  dsimp only
  rw [carryStep (s1 + s0 / 256) s2 (by omega) (by omega)]
  dsimp only
  rw [carryStep (s2 + (s1 + s0 / 256) / 256) s3 (by omega) (by omega)]
  dsimp only
  rw [carryLast (s3 + (s2 + (s1 + s0 / 256) / 256) / 256) (by omega)]
  have hsum : a + b = s0 + 256 * s1 + 65536 * s2 + 16777216 * s3 := by omega
  have hb0 : s0 < 512 := by omega
  have hb1 : s1 < 512 := by omega
  have hb2 : s2 < 512 := by omega
  have hb3 : s3 < 512 := by omega
  clear_value s0 s1 s2 s3
  clear hs0 hs1 hs2 hs3
  refine Prod.ext ?_ (Prod.ext ?_ (Prod.ext ?_ ?_)) <;> dsimp only
  · rw [show s0 % 256 = (a + b) % 2^32 % 256 from by omega]
  · rw [show (s1 + s0 / 256) % 256 = (a + b) % 2^32 / 2^8 % 256 from by omega]
  · rw [show (s2 + (s1 + s0 / 256) / 256) % 256 = (a + b) % 2^32 / 2^16 % 256 from by omega]
  · rw [show (s3 + (s2 + (s1 + s0 / 256) / 256) / 256) % 256
        = (a + b) % 2^32 / 2^24 % 256 from by omega]

/-- **C7.** Addition of pre-reduced operands is exact modular addition:
at the limb level (`f32`-simulated u16), `add(a,b) = (a+b) mod 2^16` with
a single conditional subtraction; at the wide level (four `f16` 8-bit
limbs), each limb's raw sum carries exactly one unit into the next limb
when it reaches 256 and the final limb's overflow is discarded, so
`add(a,b) = (a+b) mod 2^32`. -/
theorem claim_C7 :
    (∀ a b : ℕ, a < 65536 → b < 65536 →
      U16add (U16new a) (U16new b) = U16new ((a + b) % 65536)) ∧
    (∀ a b : ℕ, a < 2^32 → b < 2^32 →
      U32hAdd (U32hNew a) (U32hNew b) = U32hNew ((a + b) % 2^32)) :=
  ⟨U16add_correct, U32hAdd_correct⟩

/-- Witness for C7: `65535 + 2 ≡ 1 (mod 2^16)` and
`0xFFFFFFFF + 2 ≡ 1 (mod 2^32)`. -/
theorem claim_C7_witness :
    U16add (U16new 65535) (U16new 2) = U16new 1 ∧
    U32hAdd (U32hNew 4294967295) (U32hNew 2) = U32hNew 1 := by
  have h1 := claim_C7.1 65535 2 (by norm_num) (by norm_num)
  have h2 := claim_C7.2 4294967295 2 (by norm_num) (by norm_num)
  norm_num at h1 h2
  exact ⟨h1, h2⟩

lemma int_abs_le_cast {z : ℤ} {n : ℕ} (h : |z| ≤ (n:ℤ)) : |(z:ℚ)| ≤ ((n:ℕ):ℚ) := by
  rw [← Int.cast_abs]
  exact_mod_cast h

lemma fpSMOD_val : fpSMOD = ((2097143:ℕ):ℚ) :=
  rnd_natCast_small 24 2097143 (by norm_num) (by norm_num)

lemma fpSMODINV_err : |fpSMODINV - 1/2097143| ≤ 1/2^45 ∧ 0 ≤ fpSMODINV := by
  constructor
  · unfold fpSMODINV
    rw [fpSMOD_val]
    have h1 : (1:ℚ)/((2097143:ℕ):ℚ) = 1/2097143 := by norm_num
    rw [h1]
    have h2 := rnd_err (p := 24) (x := (1:ℚ)/2097143) (-21)
      (by
        rw [abs_of_pos (by norm_num : (0:ℚ) < 1/2097143)]
        rw [show ((-21:ℤ)+1) = -((20:ℕ):ℤ) by norm_num, two_zpow_neg_nat 20]
        norm_num)
      (by
        right
        rw [abs_of_pos (by norm_num : (0:ℚ) < 1/2097143),
          show (-(150:ℤ)) = -((150:ℕ):ℤ) by norm_num, two_zpow_neg_nat 150]
        norm_num)
      (by norm_num)
    rw [show ((-21:ℤ) - ((24:ℕ):ℤ)) = -((45:ℕ):ℤ) by norm_num, two_zpow_neg_nat 45] at h2
    calc |rnd 24 (1/2097143) - 1/2097143| ≤ 1/((2^45 : ℕ):ℚ) := h2
      _ = 1/2^45 := by norm_num
  · unfold fpSMODINV
    exact rnd_nonneg (by rw [fpSMOD_val]; positivity)

lemma fpSmul_correct (a b : ℕ) (ha : a < 2097143) (hb : b < 2097143) :
    fpSmul (fpSnew a) (fpSnew b) = fpSnew ((a * b) % 2097143) := by
  have hna : fpSnew a = ((a:ℕ):ℚ) := rnd_natCast_small 24 a (by omega) (by norm_num)
  have hnb : fpSnew b = ((b:ℕ):ℚ) := rnd_natCast_small 24 b (by omega) (by norm_num)
  have hab : a * b < 2 ^ 42 := by
    calc a * b ≤ 2097142 * 2097142 := Nat.mul_le_mul (by omega) (by omega)
      _ < 2 ^ 42 := by norm_num
  obtain ⟨hN, hh, herr0⟩ := rnd_nat_err (p := 24) (by norm_num) (by norm_num) (a*b) 41
    hab (by norm_num) (by norm_num)
  have herr : ((hN:ℤ) - (a*b : ℕ)).natAbs ≤ 131072 := by simpa using herr0
  have hh' : f32mul ((a:ℕ):ℚ) ((b:ℕ):ℚ) = ((hN:ℕ):ℚ) := by
    unfold f32mul
    rw [show ((a:ℕ):ℚ) * ((b:ℕ):ℚ) = (((a*b : ℕ)):ℚ) by push_cast; ring]
    exact hh
  have hNle : hN ≤ 2^42 + 131072 := by omega
  have herrQ : |((hN:ℕ):ℚ) - ((a*b : ℕ):ℚ)| ≤ ((131072:ℕ):ℚ) := by
    have h1 : |(hN:ℤ) - ((a*b:ℕ):ℤ)| ≤ ((131072:ℕ):ℤ) := by
      rw [Int.abs_eq_natAbs]
      exact_mod_cast herr
    have h2 := int_abs_le_cast h1
    rwa [show (((hN:ℤ) - ((a*b:ℕ):ℤ) : ℤ):ℚ) = ((hN:ℕ):ℚ) - ((a*b:ℕ):ℚ) by push_cast; ring]
      at h2
  have hl : f32fma ((a:ℕ):ℚ) ((b:ℕ):ℚ) (-((hN:ℕ):ℚ))
      = (((a*b : ℕ):ℚ)) - ((hN:ℕ):ℚ) := by
    unfold f32fma
    have harg : ((a:ℕ):ℚ) * ((b:ℕ):ℚ) + -((hN:ℕ):ℚ)
        = ((((a*b:ℕ):ℤ) - (hN:ℤ) : ℤ):ℚ) := by push_cast; ring
    have hmb : |((a*b:ℕ):ℤ) - (hN:ℤ)| < 2^24 := by
      rw [Int.abs_eq_natAbs]
      omega
    rw [harg]
    rw [rnd_dyadic 24 (((a*b:ℕ):ℤ) - (hN:ℤ)) 0 (by push_cast; ring) hmb
      (by norm_num) (by norm_num)]
    push_cast
    ring
  obtain ⟨hinv_err, hinv_nonneg⟩ := fpSMODINV_err
  have hinv_ub : fpSMODINV ≤ 1/2097143 + 1/2^45 := by
    have := abs_le.mp hinv_err
    linarith [this.2]
  have hinv_lb : 1/2097143 - 1/2^45 ≤ fpSMODINV := by
    have := abs_le.mp hinv_err
    linarith [this.1]
  -- the quotient estimate
  have hNleQ : ((hN:ℕ):ℚ) ≤ 2^42 + 131072 := by exact_mod_cast hNle
  have hprod_ub : ((hN:ℕ):ℚ) * fpSMODINV ≤ (2^42 + 131072) * (1/2097143 + 1/2^45) := by
    apply mul_le_mul hNleQ hinv_ub hinv_nonneg (by positivity)
  have hb2 : |f32mul ((hN:ℕ):ℚ) fpSMODINV - ((hN:ℕ):ℚ) * fpSMODINV| ≤ 1/8 := by
    unfold f32mul
    have h2 := rnd_err (p := 24) (x := ((hN:ℕ):ℚ) * fpSMODINV) 21
      (by
        rw [abs_of_nonneg (by positivity)]
        calc ((hN:ℕ):ℚ) * fpSMODINV ≤ (2^42 + 131072) * (1/2097143 + 1/2^45) := hprod_ub
          _ < (2:ℚ)^((21:ℤ)+1) := by
              rw [show ((21:ℤ)+1) = ((22:ℕ):ℤ) by norm_num, ← nat_pow_cast_zpow 22]
              norm_num)
      (by
        rcases Nat.eq_zero_or_pos hN with h0 | h0
        · left
          rw [h0]
          norm_num
        · right
          have h1 : (1:ℚ) ≤ ((hN:ℕ):ℚ) := by exact_mod_cast h0
          rw [abs_of_nonneg (by positivity)]
          have h3 : (1:ℚ) * (1/2097143 - 1/2^45) ≤ ((hN:ℕ):ℚ) * fpSMODINV := by
            apply mul_le_mul h1 hinv_lb (by norm_num) (by positivity)
          calc (2:ℚ) ^ (-(150:ℤ)) = 1/((2^150:ℕ):ℚ) := by
                rw [show (-(150:ℤ)) = -((150:ℕ):ℤ) by norm_num, two_zpow_neg_nat 150]
            _ ≤ 1 * (1/2097143 - 1/2^45) := by norm_num
            _ ≤ ((hN:ℕ):ℚ) * fpSMODINV := h3)
      (by norm_num)
    rw [show ((21:ℤ) - ((24:ℕ):ℤ)) = -((3:ℕ):ℤ) by norm_num, two_zpow_neg_nat 3] at h2
    calc |rnd 24 (((hN:ℕ):ℚ) * fpSMODINV) - ((hN:ℕ):ℚ) * fpSMODINV|
        ≤ 1/((2^3 : ℕ):ℚ) := h2
      _ = 1/8 := by norm_num
  -- distance of the estimate from the true quotient
  have hABdiff : |f32mul ((hN:ℕ):ℚ) fpSMODINV - ((a*b:ℕ):ℚ)/2097143| ≤ 2/5 := by
    have t2 : ((hN:ℕ):ℚ) * fpSMODINV - ((a*b:ℕ):ℚ)/2097143
        = (((hN:ℕ):ℚ) - ((a*b:ℕ):ℚ)) * fpSMODINV
          + ((a*b:ℕ):ℚ) * (fpSMODINV - 1/2097143) := by ring
    have t3 : |(((hN:ℕ):ℚ) - ((a*b:ℕ):ℚ)) * fpSMODINV| ≤ 131072 * (1/2097143 + 1/2^45) := by
      rw [abs_mul, abs_of_nonneg hinv_nonneg]
      apply mul_le_mul (by exact_mod_cast herrQ) hinv_ub hinv_nonneg (by norm_num)
    have t4 : |((a*b:ℕ):ℚ) * (fpSMODINV - 1/2097143)| ≤ 2^42 * (1/2^45) := by
      rw [abs_mul, abs_of_nonneg (by positivity : (0:ℚ) ≤ ((a*b:ℕ):ℚ))]
      apply mul_le_mul _ hinv_err (abs_nonneg _) (by norm_num)
      calc ((a*b:ℕ):ℚ) ≤ ((2^42 : ℕ):ℚ) := by exact_mod_cast hab.le
        _ = 2^42 := by norm_num
    calc |f32mul ((hN:ℕ):ℚ) fpSMODINV - ((a*b:ℕ):ℚ)/2097143|
        = |(f32mul ((hN:ℕ):ℚ) fpSMODINV - ((hN:ℕ):ℚ) * fpSMODINV)
            + ((((hN:ℕ):ℚ) - ((a*b:ℕ):ℚ)) * fpSMODINV
              + ((a*b:ℕ):ℚ) * (fpSMODINV - 1/2097143))| := by
          rw [← t2]
          ring_nf
      _ ≤ |f32mul ((hN:ℕ):ℚ) fpSMODINV - ((hN:ℕ):ℚ) * fpSMODINV|
            + |(((hN:ℕ):ℚ) - ((a*b:ℕ):ℚ)) * fpSMODINV
              + ((a*b:ℕ):ℚ) * (fpSMODINV - 1/2097143)| := abs_add _ _
      _ ≤ |f32mul ((hN:ℕ):ℚ) fpSMODINV - ((hN:ℕ):ℚ) * fpSMODINV|
            + (|(((hN:ℕ):ℚ) - ((a*b:ℕ):ℚ)) * fpSMODINV|
              + |((a*b:ℕ):ℚ) * (fpSMODINV - 1/2097143)|) := by
          have := abs_add ((((hN:ℕ):ℚ) - ((a*b:ℕ):ℚ)) * fpSMODINV)
            (((a*b:ℕ):ℚ) * (fpSMODINV - 1/2097143))
          linarith
      _ ≤ 1/8 + (131072 * (1/2097143 + 1/2^45) + 2^42 * (1/2^45)) := by
          linarith [hb2, t3, t4]
      _ ≤ 2/5 := by norm_num
  set B := f32mul ((hN:ℕ):ℚ) fpSMODINV with hBdef
  set c : ℤ := ⌊B⌋ with hcdef
  have hcB1 : (c:ℚ) ≤ B := Int.floor_le B
  have hcB2 : B < c + 1 := Int.lt_floor_add_one B
  have habd := abs_le.mp hABdiff
  -- the corrected residue before normalization
  set F : ℤ := ((a*b : ℕ):ℤ) - c * 2097143 with hFdef
  have hFQ : ((F:ℤ):ℚ) = ((a*b:ℕ):ℚ) - (c:ℚ) * 2097143 := by
    rw [hFdef]
    push_cast
    ring
  have hFub : ((F:ℤ):ℚ) < 2 * 2097143 := by
    rw [hFQ]
    nlinarith [habd.1, hcB2]
  have hFlb : -2097143 < ((F:ℤ):ℚ) := by
    rw [hFQ]
    nlinarith [habd.2, hcB1]
  have hFubZ : F < 2 * 2097143 := by exact_mod_cast hFub
  have hFlbZ : -2097143 < F := by exact_mod_cast hFlb
  -- the fused multiply-subtract of the estimated multiple
  have hd : f32fma (-(c:ℚ)) fpSMOD ((hN:ℕ):ℚ) = (((hN:ℤ) - c * 2097143 : ℤ):ℚ) := by
    unfold f32fma
    rw [fpSMOD_val]
    have harg : -(c:ℚ) * ((2097143:ℕ):ℚ) + ((hN:ℕ):ℚ)
        = (((hN:ℤ) - c * 2097143 : ℤ):ℚ) := by push_cast; ring
    have hmb : |(hN:ℤ) - c * 2097143| < 2^24 := by
      have e1 : (hN:ℤ) - c * 2097143 = F + ((hN:ℤ) - ((a*b:ℕ):ℤ)) := by
        rw [hFdef]
        ring
      rw [e1, abs_lt]
      constructor <;> omega
    rw [harg]
    rw [rnd_dyadic 24 ((hN:ℤ) - c * 2097143) 0 (by push_cast; ring) hmb
      (by norm_num) (by norm_num)]
  have he : f32add ((((hN:ℤ) - c * 2097143 : ℤ):ℚ)) ((((a*b : ℕ):ℚ)) - ((hN:ℕ):ℚ))
      = ((F:ℤ):ℚ) := by
    unfold f32add
    have harg : (((hN:ℤ) - c * 2097143 : ℤ):ℚ) + ((((a*b : ℕ):ℚ)) - ((hN:ℕ):ℚ))
        = ((F:ℤ):ℚ) := by
      rw [hFdef]
      push_cast
      ring
    rw [harg]
    exact rnd_dyadic 24 F 0 (by ring)
      (by rw [abs_lt]; constructor <;> omega) (by norm_num) (by norm_num)
  have hgoal : fpSnew ((a*b) % 2097143) = (((a*b % 2097143 : ℕ)):ℚ) :=
    rnd_natCast_small 24 _ (by omega) (by norm_num)
  unfold fpSmul
  rw [hna, hnb]
  dsimp only
  rw [hh', ← hBdef]
  have hfloor : f32floor B = ((c:ℤ):ℚ) := by
    unfold f32floor
    rw [hcdef]
  rw [hfloor, hd, hl, he, hgoal, fpSMOD_val]
  have hMq : ((2097143:ℕ):ℚ) = (2097143:ℚ) := by norm_num
  rw [hMq]
  split_ifs with h1 h2
  · have h1' : (2097143:ℤ) ≤ F := by exact_mod_cast h1
    unfold f32sub
    have harg : ((F:ℤ):ℚ) - 2097143 = (((F - 2097143 : ℤ)):ℚ) := by push_cast; ring
    rw [harg, rnd_dyadic 24 (F - 2097143) 0 (by push_cast; ring)
      (by rw [abs_lt]; constructor <;> omega) (by norm_num) (by norm_num)]
    exact int_nat_cast_q (by omega : F - 2097143 = ((a * b % 2097143 : ℕ):ℤ))
  · have h2' : F < 0 := by exact_mod_cast h2
    unfold f32add
    have harg : ((F:ℤ):ℚ) + 2097143 = (((F + 2097143 : ℤ)):ℚ) := by push_cast; ring
    rw [harg, rnd_dyadic 24 (F + 2097143) 0 (by push_cast; ring)
      (by rw [abs_lt]; constructor <;> omega) (by norm_num) (by norm_num)]
    exact int_nat_cast_q (by omega : F + 2097143 = ((a * b % 2097143 : ℕ):ℤ))
  · have h1' : ¬ (2097143:ℤ) ≤ F := fun hcon => h1 (by exact_mod_cast hcon)
    have h2' : ¬ F < 0 := fun hcon => h2 (by exact_mod_cast hcon)
    exact int_nat_cast_q (by omega : F = ((a * b % 2097143 : ℕ):ℤ))

lemma fpDMOD_val : fpDMOD = ((2097143:ℕ):ℚ) :=
  rnd_natCast_small 53 2097143 (by norm_num) (by norm_num)

lemma fpDMODINV_err : |fpDMODINV - 1/2097143| ≤ 1/2^74 ∧ 0 ≤ fpDMODINV := by
  constructor
  · unfold fpDMODINV
    rw [fpDMOD_val]
    have h1 : (1:ℚ)/((2097143:ℕ):ℚ) = 1/2097143 := by norm_num
    rw [h1]
    have h2 := rnd_err (p := 53) (x := (1:ℚ)/2097143) (-21)
      (by
        rw [abs_of_pos (by norm_num : (0:ℚ) < 1/2097143)]
        rw [show ((-21:ℤ)+1) = -((20:ℕ):ℤ) by norm_num, two_zpow_neg_nat 20]
        norm_num)
      (by
        right
        rw [abs_of_pos (by norm_num : (0:ℚ) < 1/2097143),
          show (-(150:ℤ)) = -((150:ℕ):ℤ) by norm_num, two_zpow_neg_nat 150]
        norm_num)
      (by norm_num)
    rw [show ((-21:ℤ) - ((53:ℕ):ℤ)) = -((74:ℕ):ℤ) by norm_num, two_zpow_neg_nat 74] at h2
    calc |rnd 53 (1/2097143) - 1/2097143| ≤ 1/((2^74 : ℕ):ℚ) := h2
      _ = 1/2^74 := by norm_num
  · unfold fpDMODINV
    exact rnd_nonneg (by rw [fpDMOD_val]; positivity)

lemma fp20_prime : Nat.Prime 2097143 := by norm_num

lemma fpDmul_correct (a b : ℕ) (ha : a < 2097143) (hb : b < 2097143) :
    fpDmul (fpDnew a) (fpDnew b) = fpDnew ((a * b) % 2097143) := by
  have hna : fpDnew a = ((a:ℕ):ℚ) := rnd_natCast_small 53 a (by omega) (by norm_num)
  have hnb : fpDnew b = ((b:ℕ):ℚ) := rnd_natCast_small 53 b (by omega) (by norm_num)
  have hab : a * b < 2 ^ 42 := by
    calc a * b ≤ 2097142 * 2097142 := Nat.mul_le_mul (by omega) (by omega)
      _ < 2 ^ 42 := by norm_num
  have hh' : f64mul ((a:ℕ):ℚ) ((b:ℕ):ℚ) = ((a * b : ℕ):ℚ) := by
    unfold f64mul
    rw [show ((a:ℕ):ℚ) * ((b:ℕ):ℚ) = (((a*b : ℕ)):ℚ) by push_cast; ring]
    exact rnd_natCast_small 53 _ (by omega) (by norm_num)
  have hgoal : fpDnew ((a*b) % 2097143) = (((a*b % 2097143 : ℕ)):ℚ) :=
    rnd_natCast_small 53 _ (by omega) (by norm_num)
  unfold fpDmul
  rw [hna, hnb]
  dsimp only
  rw [hh', hgoal]
  rcases Nat.eq_zero_or_pos ((a*b) % 2097143) with hr | hr
  · -- the product is a multiple of the prime modulus, so it is zero
    have hdvd : 2097143 ∣ a * b := Nat.dvd_of_mod_eq_zero hr
    have hz : a * b = 0 := by
      rcases (Nat.Prime.dvd_mul fp20_prime).mp hdvd with h | h
      · have : a = 0 := Nat.eq_zero_of_dvd_of_lt h ha
        simp [this]
      · have : b = 0 := Nat.eq_zero_of_dvd_of_lt h hb
        simp [this]
    rw [hr, hz]
    have e1 : f64mul ((0:ℕ):ℚ) fpDMODINV = 0 := by
      unfold f64mul
      rw [show ((0:ℕ):ℚ) * fpDMODINV = 0 by norm_num]
      exact rnd_zero 53
    rw [e1]
    have e2 : f64trunc 0 = ((0:ℕ):ℚ) := by
      unfold f64trunc
      rw [show (0:ℚ) = ((0:ℕ):ℚ) by norm_num, qtrunc_natCast]
      norm_num
    rw [e2]
    have e3 : f64mul ((0:ℕ):ℚ) fpDMOD = 0 := by
      unfold f64mul
      rw [show ((0:ℕ):ℚ) * fpDMOD = 0 by norm_num]
      exact rnd_zero 53
    rw [e3]
    unfold f64sub
    rw [show ((0:ℕ):ℚ) - 0 = 0 by norm_num]
    rw [rnd_zero 53]
    norm_num
  · -- the residue is nonzero, so the quotient estimate truncates exactly
    obtain ⟨hinv_err, hinv_nonneg⟩ := fpDMODINV_err
    have hinv_ub : fpDMODINV ≤ 1/2097143 + 1/2^74 := by
      have := abs_le.mp hinv_err
      linarith [this.2]
    have hinv_lb : 1/2097143 - 1/2^74 ≤ fpDMODINV := by
      have := abs_le.mp hinv_err
      linarith [this.1]
    have hA0 : 0 < a * b := by
      rcases Nat.eq_zero_or_pos (a * b) with h0 | h0
      · rw [h0] at hr
        norm_num at hr
      · exact h0
    have hAQ : ((a*b:ℕ):ℚ) ≤ 2^42 := by
      calc ((a*b:ℕ):ℚ) ≤ ((2^42 : ℕ):ℚ) := by exact_mod_cast hab.le
        _ = 2^42 := by norm_num
    have hA1 : (1:ℚ) ≤ ((a*b:ℕ):ℚ) := by exact_mod_cast hA0
    have hprod_ub : ((a*b:ℕ):ℚ) * fpDMODINV ≤ 2^42 * (1/2097143 + 1/2^74) := by
      apply mul_le_mul hAQ hinv_ub hinv_nonneg (by positivity)
    have hBerr : |f64mul ((a*b:ℕ):ℚ) fpDMODINV - ((a*b:ℕ):ℚ) * fpDMODINV| ≤ 1/2^32 := by
      unfold f64mul
      have h2 := rnd_err (p := 53) (x := ((a*b:ℕ):ℚ) * fpDMODINV) 21
        (by
          rw [abs_of_nonneg (by positivity)]
          calc ((a*b:ℕ):ℚ) * fpDMODINV ≤ 2^42 * (1/2097143 + 1/2^74) := hprod_ub
            _ < (2:ℚ)^((21:ℤ)+1) := by
                rw [show ((21:ℤ)+1) = ((22:ℕ):ℤ) by norm_num, ← nat_pow_cast_zpow 22]
                norm_num)
        (by
          right
          rw [abs_of_nonneg (by positivity)]
          have h3 : (1:ℚ) * (1/2097143 - 1/2^74) ≤ ((a*b:ℕ):ℚ) * fpDMODINV := by
            apply mul_le_mul hA1 hinv_lb (by norm_num) (by positivity)
          calc (2:ℚ) ^ (-(150:ℤ)) = 1/((2^150:ℕ):ℚ) := by
                rw [show (-(150:ℤ)) = -((150:ℕ):ℤ) by norm_num, two_zpow_neg_nat 150]
            _ ≤ 1 * (1/2097143 - 1/2^74) := by norm_num
            _ ≤ ((a*b:ℕ):ℚ) * fpDMODINV := h3)
        (by norm_num)
      rw [show ((21:ℤ) - ((53:ℕ):ℤ)) = -((32:ℕ):ℤ) by norm_num, two_zpow_neg_nat 32] at h2
      calc |rnd 53 (((a*b:ℕ):ℚ) * fpDMODINV) - ((a*b:ℕ):ℚ) * fpDMODINV|
          ≤ 1/((2^32 : ℕ):ℚ) := h2
        _ = 1/2^32 := by norm_num
    have hABdiff : |f64mul ((a*b:ℕ):ℚ) fpDMODINV - ((a*b:ℕ):ℚ)/2097143| ≤ 1/2^31 := by
      have t2 : ((a*b:ℕ):ℚ) * fpDMODINV - ((a*b:ℕ):ℚ)/2097143
          = ((a*b:ℕ):ℚ) * (fpDMODINV - 1/2097143) := by ring
      have t4 : |((a*b:ℕ):ℚ) * (fpDMODINV - 1/2097143)| ≤ 2^42 * (1/2^74) := by
        rw [abs_mul, abs_of_nonneg (by positivity : (0:ℚ) ≤ ((a*b:ℕ):ℚ))]
        apply mul_le_mul hAQ hinv_err (abs_nonneg _) (by norm_num)
      have t5 := abs_add (f64mul ((a*b:ℕ):ℚ) fpDMODINV - ((a*b:ℕ):ℚ) * fpDMODINV)
        (((a*b:ℕ):ℚ) * (fpDMODINV - 1/2097143))
      calc |f64mul ((a*b:ℕ):ℚ) fpDMODINV - ((a*b:ℕ):ℚ)/2097143|
          = |(f64mul ((a*b:ℕ):ℚ) fpDMODINV - ((a*b:ℕ):ℚ) * fpDMODINV)
              + ((a*b:ℕ):ℚ) * (fpDMODINV - 1/2097143)| := by
            rw [← t2]
            ring_nf
        _ ≤ |f64mul ((a*b:ℕ):ℚ) fpDMODINV - ((a*b:ℕ):ℚ) * fpDMODINV|
              + |((a*b:ℕ):ℚ) * (fpDMODINV - 1/2097143)| := t5
        _ ≤ 1/2^32 + 2^42 * (1/2^74) := by linarith [hBerr, t4]
        _ ≤ 1/2^31 := by norm_num
    set B := f64mul ((a*b:ℕ):ℚ) fpDMODINV with hBdef
    have hBnonneg : 0 ≤ B := by
      rw [hBdef]
      unfold f64mul
      exact rnd_nonneg (by positivity)
    set q := (a * b) / 2097143 with hqdef
    set r := (a * b) % 2097143 with hrdef
    have hqr : a * b = 2097143 * q + r := (Nat.div_add_mod (a*b) 2097143).symm
    have hrlt : r < 2097143 := Nat.mod_lt _ (by norm_num)
    have habd := abs_le.mp hABdiff
    have hABQ : ((a*b:ℕ):ℚ) = 2097143 * (q:ℚ) + (r:ℚ) := by exact_mod_cast hqr
    have hAsplit : ((a*b:ℕ):ℚ)/2097143 = (q:ℚ) + (r:ℚ)/2097143 := by
      rw [hABQ]
      ring
    have hr1 : (1:ℚ) ≤ (r:ℚ) := by exact_mod_cast hr
    have hrltQ : (r:ℚ) ≤ 2097142 := by exact_mod_cast Nat.le_of_lt_succ hrlt
    have hfloorB : ⌊B⌋ = (q:ℤ) := by
      apply Int.floor_eq_iff.mpr
      constructor
      · push_cast
        rw [hAsplit] at habd
        linarith [habd.1, hr1]
      · push_cast
        rw [hAsplit] at habd
        linarith [habd.2, hrltQ]
    have htr : f64trunc B = ((q:ℕ):ℚ) := by
      unfold f64trunc
      rw [qtrunc_eq_floor hBnonneg, hfloorB]
      norm_num
    rw [htr]
    have hqM : f64mul ((q:ℕ):ℚ) fpDMOD = ((q * 2097143 : ℕ):ℚ) := by
      unfold f64mul
      rw [fpDMOD_val]
      rw [show ((q:ℕ):ℚ) * ((2097143:ℕ):ℚ) = ((q * 2097143 : ℕ):ℚ) by push_cast; ring]
      refine rnd_natCast_small 53 _ ?_ (by norm_num)
      have hq42 : 2097143 * q + r < 2 ^ 42 := hqr ▸ hab
      omega
    rw [hqM]
    unfold f64sub
    rw [show ((a*b:ℕ):ℚ) - ((q * 2097143 : ℕ):ℚ) = ((r:ℕ):ℚ) by
      rw [hABQ]
      push_cast
      ring]
    exact rnd_natCast_small 53 r (by omega) (by norm_num)

/-- C6: for every pair of canonical pseudo-Mersenne field elements a, b < p = 2097143,
both the f32 and the f64 floating-point field multiplies return the canonical
representative of (a*b) mod p, a value in the range [0, p). In the source the f32
variant ends with the conditional normalization (subtract p once if the recombined
value reached p, add p once if it went negative); the f64 variant returns the
truncation-based remainder directly (its normalization is commented out), yet the
returned value still always lies in [0, p) and equals (a*b) mod p. -/
theorem claim_C6 :
    ∀ a b : ℕ, a < 2097143 → b < 2097143 →
      fpSmul (fpSnew a) (fpSnew b) = fpSnew ((a * b) % 2097143) ∧
      fpDmul (fpDnew a) (fpDnew b) = fpDnew ((a * b) % 2097143) ∧
      fpSmul (fpSnew a) (fpSnew b) = (((a * b) % 2097143 : ℕ) : ℚ) ∧
      fpDmul (fpDnew a) (fpDnew b) = (((a * b) % 2097143 : ℕ) : ℚ) ∧
      0 ≤ fpSmul (fpSnew a) (fpSnew b) ∧ fpSmul (fpSnew a) (fpSnew b) < 2097143 ∧
      0 ≤ fpDmul (fpDnew a) (fpDnew b) ∧ fpDmul (fpDnew a) (fpDnew b) < 2097143 := by
  intro a b ha hb
  have hrlt : (a * b) % 2097143 < 2097143 := Nat.mod_lt _ (by norm_num)
  have h1 := fpSmul_correct a b ha hb
  have h2 := fpDmul_correct a b ha hb
  have hS : fpSnew ((a * b) % 2097143) = (((a * b) % 2097143 : ℕ) : ℚ) := by
    unfold fpSnew
    exact rnd_natCast_small 24 _ (by omega) (by norm_num)
  have hD : fpDnew ((a * b) % 2097143) = (((a * b) % 2097143 : ℕ) : ℚ) := by
    unfold fpDnew
    exact rnd_natCast_small 53 _ (by omega) (by norm_num)
  have hub : (((a * b) % 2097143 : ℕ) : ℚ) < 2097143 := by exact_mod_cast hrlt
  refine ⟨h1, h2, h1.trans hS, h2.trans hD, ?_, ?_, ?_, ?_⟩
  · rw [h1, hS]
    positivity
  · rw [h1, hS]
    exact hub
  · rw [h2, hD]
    positivity
  · rw [h2, hD]
    exact hub

/-- Witness for C6 at the boundary a = b = p - 1: (p-1)^2 mod p = 1 in both variants. -/
theorem claim_C6_witness :
    fpSmul (fpSnew 2097142) (fpSnew 2097142) = fpSnew 1 ∧
    fpDmul (fpDnew 2097142) (fpDnew 2097142) = fpDnew 1 := by
  have h := claim_C6 2097142 2097142 (by norm_num) (by norm_num)
  have h1 := h.1
  have h2 := h.2.1
  norm_num at h1 h2
  exact ⟨h1, h2⟩

lemma FRep_nat24 (n : ℕ) (h : n < 2^24) : FRep 24 ((n:ℕ):ℚ) :=
  ⟨(n:ℤ), 0, by push_cast; ring, by rw [Int.abs_eq_natAbs]; omega⟩

lemma rnd_nat_div16 (n : ℕ) (h : n < 2^24) : rnd 24 ((n:ℚ)/16) = (n:ℚ)/16 := by
  rw [show (16:ℚ) = ((2^4:ℕ):ℚ) by norm_num]
  exact rnd_frep_nat_div_pow 24 n 4 (FRep_nat24 n h) (by omega) (by norm_num)

lemma rnd_nat_div256 (n : ℕ) (h : n < 2^24) : rnd 24 ((n:ℚ)/256) = (n:ℚ)/256 := by
  rw [show (256:ℚ) = ((2^8:ℕ):ℚ) by norm_num]
  exact rnd_frep_nat_div_pow 24 n 8 (FRep_nat24 n h) (by omega) (by norm_num)

lemma rnd_nat_div65536 (n : ℕ) (h : n < 2^24) :
    rnd 24 ((n:ℚ)/65536) = (n:ℚ)/65536 := by
  rw [show (65536:ℚ) = ((2^16:ℕ):ℚ) by norm_num]
  exact rnd_frep_nat_div_pow 24 n 16 (FRep_nat24 n h) (by omega) (by norm_num)

lemma rnd_nat_div16777216 (n : ℕ) (h : n < 2^24) :
    rnd 24 ((n:ℚ)/16777216) = (n:ℚ)/16777216 := by
  rw [show (16777216:ℚ) = ((2^24:ℕ):ℚ) by norm_num]
  exact rnd_frep_nat_div_pow 24 n 24 (FRep_nat24 n h) (by omega) (by norm_num)

lemma spdiv256 (n : ℕ) (h : n < 2^24) : f32div ((n:ℚ)) 256 = (n:ℚ)/256 := by
  unfold f32div
  exact rnd_nat_div256 n h

lemma sptrunc256 (n : ℕ) : f32trunc ((n:ℚ)/256) = ((n/256 : ℕ):ℚ) := by
  unfold f32trunc
  rw [show (256:ℚ) = ((256:ℕ):ℚ) by norm_num, qtrunc_natCast_div]
  exact int_nat_cast_q rfl

lemma spfract256 (n : ℕ) : f32fract ((n:ℚ)/256) = ((n % 256 : ℕ):ℚ)/256 := by
  unfold f32fract
  rw [sptrunc256]
  unfold f32sub
  have hs := sub_trunc_natCast_div n 256 (by norm_num)
  rw [show ((256:ℕ):ℚ) = (256:ℚ) by norm_num] at hs
  rw [hs]
  exact rnd_nat_div256 _ (by omega)

lemma spdiv16 (n : ℕ) (h : n < 2^24) : f32div ((n:ℚ)) 16 = (n:ℚ)/16 := by
  unfold f32div
  exact rnd_nat_div16 n h

lemma spmul16 (n : ℕ) (h : n < 2^24) : f32mul ((n:ℚ)/256) 16 = (n:ℚ)/16 := by
  unfold f32mul
  rw [show (n:ℚ)/256 * 16 = (n:ℚ)/16 by ring]
  exact rnd_nat_div16 n h

lemma spmul256 (n : ℕ) (h : n < 2^24) : f32mul ((n:ℚ)/256) 256 = ((n:ℕ):ℚ) := by
  unfold f32mul
  rw [show (n:ℚ)/256 * 256 = ((n:ℕ):ℚ) by ring]
  exact rnd_natCast_small 24 n h (by norm_num)

lemma spfma256 (L T : ℕ) (h : L + T < 2^24) :
    f32fma ((L:ℚ)/256) 256 ((T:ℚ)) = ((L + T : ℕ):ℚ) := by
  unfold f32fma
  rw [show (L:ℚ)/256 * 256 + (T:ℚ) = ((L + T : ℕ):ℚ) by push_cast; ring]
  exact rnd_natCast_small 24 _ h (by norm_num)

lemma spadd_nat (m n : ℕ) (h : m + n < 2^24) :
    f32add ((m:ℚ)) ((n:ℚ)) = ((m + n : ℕ):ℚ) := by
  unfold f32add
  rw [show (m:ℚ) + (n:ℚ) = ((m + n : ℕ):ℚ) by push_cast; ring]
  exact rnd_natCast_small 24 _ h (by norm_num)

lemma spfma_mul256 (t f : ℕ) (h : 256 * t + f < 2^24) :
    f32fma ((t:ℚ)) 256 ((f:ℚ)) = ((256 * t + f : ℕ):ℚ) := by
  unfold f32fma
  rw [show (t:ℚ) * 256 + (f:ℚ) = ((256 * t + f : ℕ):ℚ) by push_cast; ring]
  exact rnd_natCast_small 24 _ h (by norm_num)

lemma spdiv65536 (n : ℕ) (h : n < 2^24) : f32div ((n:ℚ)) 65536 = (n:ℚ)/65536 := by
  unfold f32div
  exact rnd_nat_div65536 n h

lemma sptrunc65536 (n : ℕ) : f32trunc ((n:ℚ)/65536) = ((n/65536 : ℕ):ℚ) := by
  unfold f32trunc
  rw [show (65536:ℚ) = ((65536:ℕ):ℚ) by norm_num, qtrunc_natCast_div]
  exact int_nat_cast_q rfl

lemma spfract65536 (n : ℕ) : f32fract ((n:ℚ)/65536) = ((n % 65536 : ℕ):ℚ)/65536 := by
  unfold f32fract
  rw [sptrunc65536]
  unfold f32sub
  have hs := sub_trunc_natCast_div n 65536 (by norm_num)
  rw [show ((65536:ℕ):ℚ) = (65536:ℚ) by norm_num] at hs
  rw [hs]
  exact rnd_nat_div65536 _ (by omega)

lemma spmul65536 (n : ℕ) (h : n < 2^24) : f32mul ((n:ℚ)/65536) 65536 = ((n:ℕ):ℚ) := by
  unfold f32mul
  rw [show (n:ℚ)/65536 * 65536 = ((n:ℕ):ℚ) by ring]
  exact rnd_natCast_small 24 n h (by norm_num)

lemma spfma65536 (L T : ℕ) (h : L + T < 2^24) :
    f32fma ((L:ℚ)/65536) 65536 ((T:ℚ)) = ((L + T : ℕ):ℚ) := by
  unfold f32fma
  rw [show (L:ℚ)/65536 * 65536 + (T:ℚ) = ((L + T : ℕ):ℚ) by push_cast; ring]
  exact rnd_natCast_small 24 _ h (by norm_num)

lemma spsub65536 (n : ℕ) (h1 : 65536 ≤ n) (h2 : n < 2^24) :
    f32sub ((n:ℚ)) 65536 = ((n - 65536 : ℕ):ℚ) := by
  unfold f32sub
  have hc : ((n - 65536 : ℕ):ℚ) = (n:ℚ) - 65536 := by
    push_cast [h1]
    ring
  rw [show (n:ℚ) - 65536 = ((n - 65536 : ℕ):ℚ) from hc.symm]
  exact rnd_natCast_small 24 _ (by omega) (by norm_num)

lemma U16MODINV_val : U16MODINV = 1/65536 := by
  unfold U16MODINV
  rw [rnd_dyadic 24 1 (-16)
    (by rw [show (-16 : ℤ) = -((16:ℕ):ℤ) by norm_num, two_zpow_neg_nat 16]; norm_num)
    (by norm_num) (by norm_num) (by norm_num)]

lemma innerMulSP_byte (U V : ℕ) (hU : U < 256) (hV : V < 256) :
    innerMulSP ((U:ℚ)/16) ((V:ℚ)/16) = ((U * V : ℕ):ℚ)/256 := by
  have hUV : U * V < 65536 := by
    calc U * V ≤ 255 * 255 := Nat.mul_le_mul (by omega) (by omega)
      _ < 65536 := by norm_num
  have hh : f32mul ((U:ℚ)/16) ((V:ℚ)/16) = ((U * V : ℕ):ℚ)/256 := by
    unfold f32mul
    rw [show (U:ℚ)/16 * ((V:ℚ)/16) = ((U * V : ℕ):ℚ)/256 by push_cast; ring]
    exact rnd_nat_div256 _ (by omega)
  have hl : f32fma ((U:ℚ)/16) ((V:ℚ)/16) (-(((U * V : ℕ):ℚ)/256)) = 0 := by
    unfold f32fma
    rw [show (U:ℚ)/16 * ((V:ℚ)/16) + -(((U * V : ℕ):ℚ)/256) = 0 by push_cast; ring]
    exact rnd_zero 24
  have hinvb : f32mul (((U * V : ℕ):ℚ)/256) U16MODINV = ((U * V : ℕ):ℚ)/16777216 := by
    rw [U16MODINV_val]
    unfold f32mul
    rw [show ((U * V : ℕ):ℚ)/256 * (1/65536) = ((U * V : ℕ):ℚ)/16777216 by ring]
    exact rnd_nat_div16777216 _ (by omega)
  have hcz : f32trunc (((U * V : ℕ):ℚ)/16777216) = 0 := by
    unfold f32trunc
    rw [show (16777216:ℚ) = ((16777216:ℕ):ℚ) by norm_num, qtrunc_natCast_div]
    rw [Nat.div_eq_of_lt (by omega)]
    norm_num
  have hd : f32fma (-0) U16MOD (((U * V : ℕ):ℚ)/256) = ((U * V : ℕ):ℚ)/256 := by
    unfold f32fma
    rw [show (-0:ℚ) * U16MOD + ((U * V : ℕ):ℚ)/256 = ((U * V : ℕ):ℚ)/256 by ring]
    exact rnd_nat_div256 _ (by omega)
  have hfin : f32add (((U * V : ℕ):ℚ)/256) 0 = ((U * V : ℕ):ℚ)/256 := by
    unfold f32add
    rw [add_zero]
    exact rnd_nat_div256 _ (by omega)
  unfold innerMulSP
  dsimp only
  rw [hh, hinvb, hcz, hd, hl, hfin]

lemma U32spMul_correct (a b : ℕ) (ha : a < 4294967296) (hb : b < 4294967296) :
    U32spMul (U32spNew a) (U32spNew b) = U32spNew ((a * b) % 4294967296) := by
  have hLa : U32spNew a = (((a % 65536 : ℕ):ℚ), ((a / 65536 % 65536 : ℕ):ℚ)) := by
    unfold U32spNew U16new
    rw [rnd_natCast_small 24 (a % 65536) (by omega) (by norm_num),
      rnd_natCast_small 24 (a / 65536 % 65536) (by omega) (by norm_num)]
  have hLb : U32spNew b = (((b % 65536 : ℕ):ℚ), ((b / 65536 % 65536 : ℕ):ℚ)) := by
    unfold U32spNew U16new
    rw [rnd_natCast_small 24 (b % 65536) (by omega) (by norm_num),
      rnd_natCast_small 24 (b / 65536 % 65536) (by omega) (by norm_num)]
  have hRHS : U32spNew ((a * b) % 4294967296)
      = (((a * b % 4294967296 % 65536 : ℕ):ℚ),
         ((a * b % 4294967296 / 65536 % 65536 : ℕ):ℚ)) := by
    unfold U32spNew U16new
    rw [rnd_natCast_small 24 (a * b % 4294967296 % 65536) (by omega) (by norm_num),
      rnd_natCast_small 24 (a * b % 4294967296 / 65536 % 65536) (by omega) (by norm_num)]
  rw [hLa, hLb, hRHS]
  unfold U32spMul
  dsimp only
  rw [spdiv256 (a % 65536) (by omega), spdiv256 (a / 65536 % 65536) (by omega),
    spdiv256 (b % 65536) (by omega), spdiv256 (b / 65536 % 65536) (by omega)]
  rw [sptrunc256 (a % 65536), spfract256 (a % 65536),
    sptrunc256 (a / 65536 % 65536), spfract256 (a / 65536 % 65536),
    sptrunc256 (b % 65536), spfract256 (b % 65536),
    sptrunc256 (b / 65536 % 65536), spfract256 (b / 65536 % 65536)]
  rw [spdiv16 (a % 65536 / 256) (by omega), spmul16 (a % 65536 % 256) (by omega),
    spdiv16 (a / 65536 % 65536 / 256) (by omega),
    spmul16 (a / 65536 % 65536 % 256) (by omega),
    spdiv16 (b % 65536 / 256) (by omega), spmul16 (b % 65536 % 256) (by omega),
    spdiv16 (b / 65536 % 65536 / 256) (by omega),
    spmul16 (b / 65536 % 65536 % 256) (by omega)]
  rw [innerMulSP_byte (a % 65536 % 256) (b % 65536 % 256) (by omega) (by omega),
    innerMulSP_byte (a % 65536 % 256) (b % 65536 / 256) (by omega) (by omega),
    innerMulSP_byte (a % 65536 % 256) (b / 65536 % 65536 % 256) (by omega) (by omega),
    innerMulSP_byte (a % 65536 % 256) (b / 65536 % 65536 / 256) (by omega) (by omega),
    innerMulSP_byte (a % 65536 / 256) (b % 65536 % 256) (by omega) (by omega),
    innerMulSP_byte (a % 65536 / 256) (b % 65536 / 256) (by omega) (by omega),
    innerMulSP_byte (a % 65536 / 256) (b / 65536 % 65536 % 256) (by omega) (by omega),
    innerMulSP_byte (a / 65536 % 65536 % 256) (b % 65536 % 256) (by omega) (by omega),
    innerMulSP_byte (a / 65536 % 65536 % 256) (b % 65536 / 256) (by omega) (by omega),
    innerMulSP_byte (a / 65536 % 65536 / 256) (b % 65536 % 256) (by omega) (by omega)]
  have ha' : a = a % 65536 % 256 + 256 * (a % 65536 / 256)
      + 65536 * (a / 65536 % 65536 % 256) + 16777216 * (a / 65536 % 65536 / 256) := by
    omega
  have hb' : b = b % 65536 % 256 + 256 * (b % 65536 / 256)
      + 65536 * (b / 65536 % 65536 % 256) + 16777216 * (b / 65536 % 65536 / 256) := by
    omega
  generalize hB0 : a % 65536 % 256 = B0 at ha' ⊢
  generalize hB1 : a % 65536 / 256 = B1 at ha' ⊢
  generalize hB2 : a / 65536 % 65536 % 256 = B2 at ha' ⊢
  generalize hB3 : a / 65536 % 65536 / 256 = B3 at ha' ⊢
  generalize hC0 : b % 65536 % 256 = C0 at hb' ⊢
  generalize hC1 : b % 65536 / 256 = C1 at hb' ⊢
  generalize hC2 : b / 65536 % 65536 % 256 = C2 at hb' ⊢
  generalize hC3 : b / 65536 % 65536 / 256 = C3 at hb' ⊢
  have hd0 : B0 < 256 := by omega
  have hd1 : B1 < 256 := by omega
  have hd2 : B2 < 256 := by omega
  have hd3 : B3 < 256 := by omega
  have he0 : C0 < 256 := by omega
  have he1 : C1 < 256 := by omega
  have he2 : C2 < 256 := by omega
  have he3 : C3 < 256 := by omega
  have hexp : a * b = B0*C0 + 256*(B0*C1 + B1*C0) + 65536*(B0*C2 + B1*C1 + B2*C0)
      + 16777216*(B0*C3 + B1*C2 + B2*C1 + B3*C0)
      + 4294967296*(B1*C3 + B2*C2 + B3*C1 + 256*(B2*C3 + B3*C2) + 65536*(B3*C3)) := by
    calc a * b = (B0 + 256 * B1 + 65536 * B2 + 16777216 * B3)
        * (C0 + 256 * C1 + 65536 * C2 + 16777216 * C3) := by rw [← ha', ← hb']
      _ = _ := by ring
  have hq03 : B0 * C0 ≤ 255 * 255 := Nat.mul_le_mul (by omega) (by omega)
  have hq02 : B0 * C1 ≤ 255 * 255 := Nat.mul_le_mul (by omega) (by omega)
  have hq01 : B0 * C2 ≤ 255 * 255 := Nat.mul_le_mul (by omega) (by omega)
  have hq00 : B0 * C3 ≤ 255 * 255 := Nat.mul_le_mul (by omega) (by omega)
  have hq13 : B1 * C0 ≤ 255 * 255 := Nat.mul_le_mul (by omega) (by omega)
  have hq12 : B1 * C1 ≤ 255 * 255 := Nat.mul_le_mul (by omega) (by omega)
  have hq11 : B1 * C2 ≤ 255 * 255 := Nat.mul_le_mul (by omega) (by omega)
  have hq23 : B2 * C0 ≤ 255 * 255 := Nat.mul_le_mul (by omega) (by omega)
  have hq22 : B2 * C1 ≤ 255 * 255 := Nat.mul_le_mul (by omega) (by omega)
  have hq33 : B3 * C0 ≤ 255 * 255 := Nat.mul_le_mul (by omega) (by omega)
  generalize hg03 : B0 * C0 = P03 at hexp hq03 ⊢
  generalize hg02 : B0 * C1 = P02 at hexp hq02 ⊢
  generalize hg01 : B0 * C2 = P01 at hexp hq01 ⊢
  generalize hg00 : B0 * C3 = P00 at hexp hq00 ⊢
  generalize hg13 : B1 * C0 = P13 at hexp hq13 ⊢
  generalize hg12 : B1 * C1 = P12 at hexp hq12 ⊢
  generalize hg11 : B1 * C2 = P11 at hexp hq11 ⊢
  generalize hg23 : B2 * C0 = P23 at hexp hq23 ⊢
  generalize hg22 : B2 * C1 = P22 at hexp hq22 ⊢
  generalize hg33 : B3 * C0 = P33 at hexp hq33 ⊢
  generalize hgK : B1*C3 + B2*C2 + B3*C1 + 256*(B2*C3 + B3*C2) + 65536*(B3*C3) = K
    at hexp
  generalize hgA : a * b = A at hexp ⊢
  clear hg03 hg02 hg01 hg00 hg13 hg12 hg11 hg23 hg22 hg33 hgK hgA
  clear hB0 hB1 hB2 hB3 hC0 hC1 hC2 hC3 ha' hb' ha hb
  clear hd0 hd1 hd2 hd3 he0 he1 he2 he3
  rw [spfract256 P03, sptrunc256 P03, spfract256 P02, sptrunc256 P02,
    spfract256 P01, sptrunc256 P01, spfract256 P00, spfract256 P13,
    sptrunc256 P13, spfract256 P12, sptrunc256 P12, spfract256 P11,
    spfract256 P23, sptrunc256 P23, spfract256 P22, spfract256 P33]
  rw [spmul256 (P03 % 256) (by omega)]
  rw [spfma256 (P02 % 256) (P03 / 256) (by omega)]
  rw [spfma256 (P01 % 256) (P02 / 256) (by omega)]
  rw [spfma256 (P00 % 256) (P01 / 256) (by omega)]
  rw [spfma256 (P13 % 256) (P02 % 256 + P03 / 256) (by omega)]
  rw [spfma256 (P12 % 256) (P13 / 256) (by omega)]
  rw [spadd_nat (P01 % 256 + P02 / 256) (P12 % 256 + P13 / 256) (by omega)]
  rw [spfma256 (P11 % 256) (P12 / 256) (by omega)]
  rw [spadd_nat (P00 % 256 + P01 / 256) (P11 % 256 + P12 / 256) (by omega)]
  rw [spfma256 (P23 % 256) (P01 % 256 + P02 / 256 + (P12 % 256 + P13 / 256)) (by omega)]
  rw [spfma256 (P22 % 256) (P23 / 256) (by omega)]
  rw [spadd_nat (P00 % 256 + P01 / 256 + (P11 % 256 + P12 / 256))
    (P22 % 256 + P23 / 256) (by omega)]
  rw [spfma256 (P33 % 256)
    (P00 % 256 + P01 / 256 + (P11 % 256 + P12 / 256) + (P22 % 256 + P23 / 256))
    (by omega)]
  set T3 := P13 % 256 + (P02 % 256 + P03 / 256) with hT3
  set S2 := P23 % 256 + (P01 % 256 + P02 / 256 + (P12 % 256 + P13 / 256)) with hS2
  set F1 := P33 % 256
    + (P00 % 256 + P01 / 256 + (P11 % 256 + P12 / 256) + (P22 % 256 + P23 / 256))
    with hF1
  rw [spfma_mul256 T3 (P03 % 256) (by omega)]
  set W0 := 256 * T3 + P03 % 256 with hW0
  rw [spdiv65536 W0 (by omega)]
  rw [spfma_mul256 F1 S2 (by omega)]
  set W1 := 256 * F1 + S2 with hW1
  rw [spdiv65536 W1 (by omega)]
  rw [spfract65536 W0, spmul65536 (W0 % 65536) (by omega), sptrunc65536 W0]
  rw [spfract65536 W1]
  rw [spfma65536 (W1 % 65536) (W0 / 65536) (by omega)]
  set L1 := W1 % 65536 + W0 / 65536 with hL1
  clear_value L1 W1 W0 F1 S2 T3
  have hW0e : W0 = P03 + 256 * (P13 % 256) + 256 * (P02 % 256) := by
    clear hexp hS2 hF1 hW1 hL1 hq03 hq02 hq01 hq00 hq13 hq12 hq11 hq23 hq22 hq33
    omega
  have hW1e : W1 = P01 + P12 + P23 + P02 / 256 + P13 / 256
      + 256 * (P00 % 256 + P11 % 256 + P22 % 256 + P33 % 256) := by
    clear hexp hT3 hW0 hL1 hW0e hq03 hq02 hq01 hq00 hq13 hq12 hq11 hq23 hq22 hq33
    omega
  clear hT3 hS2 hF1 hW0 hW1
  have hW0b : W0 < 196608 := by
    clear hexp hW1e hL1 hq01 hq00 hq12 hq11 hq23 hq22 hq33
    omega
  obtain ⟨D, hAD, hDW1⟩ : ∃ D, A = W0 + 65536 * D ∧ W1 % 65536 = D % 65536 := by
    refine ⟨P02 / 256 + P13 / 256 + (P01 + P12 + P23)
      + 256 * (P00 + P11 + P22 + P33) + 65536 * K, ?_, ?_⟩
    · clear hW1e hL1 hW0b hq03 hq02 hq01 hq00 hq13 hq12 hq11 hq23 hq22 hq33
      omega
    · clear hexp hW0e hL1 hW0b hq03 hq02 hq01 hq00 hq13 hq12 hq11 hq23 hq22 hq33
      omega
  clear hexp hW0e hW1e hq03 hq02 hq01 hq00 hq13 hq12 hq11 hq23 hq22 hq33
  have hlow : W0 % 65536 = A % 4294967296 % 65536 := by omega
  have hAdiv : A / 65536 = D + W0 / 65536 := by omega
  have hmm : A % 4294967296 / 65536 % 65536 = A / 65536 % 65536 := by
    clear hL1 hW0b hAD hDW1 hAdiv hlow
    omega
  have hL1m : L1 % 65536 = A % 4294967296 / 65536 % 65536 := by
    rw [hmm]
    clear hmm hW0b hAD hlow
    omega
  have hL1b : L1 ≤ 65537 := by
    clear hAD hDW1 hAdiv hlow hmm hL1m
    omega
  clear hAD hDW1 hAdiv hmm hL1 hW0b
  rw [show W0 % 65536 = A % 4294967296 % 65536 from hlow]
  split_ifs with hcond
  · have hcn : (65536:ℕ) ≤ L1 := by exact_mod_cast hcond
    rw [spsub65536 L1 hcn (by omega)]
    rw [show L1 - 65536 = A % 4294967296 / 65536 % 65536 from by omega]
  · have hcn : L1 < 65536 := by
      by_contra hcc
      exact hcond (by exact_mod_cast Nat.le_of_not_lt hcc)
    rw [show L1 = A % 4294967296 / 65536 % 65536 from by omega]

/-- C2: for every pair of 32-bit values, the two-limb (2x16) single-precision
wide-integer schoolbook multiply — sub-digit splitting, the ten cross-term
products contributing below bit 32, per-term reduction, and the fold of the four
byte-aligned accumulators back into two limbs — equals native fixed-width
wraparound multiplication: U32::new(a) * U32::new(b) = U32::new((a*b) mod 2^32). -/
theorem claim_C2 :
    ∀ a b : ℕ, a < 4294967296 → b < 4294967296 →
      U32spMul (U32spNew a) (U32spNew b) = U32spNew ((a * b) % 4294967296) :=
  fun a b ha hb => U32spMul_correct a b ha hb

/-- Witness for C2 at the spec's concrete scenario mul(0xFFFF0000, 0x10000),
whose wraparound product is 0. -/
theorem claim_C2_witness :
    U32spMul (U32spNew 4294901760) (U32spNew 65536) = U32spNew 0 := by
  have h := claim_C2 4294901760 65536 (by norm_num) (by norm_num)
  norm_num at h
  exact h

lemma rnd_neg_one : rnd 24 (-1:ℚ) = -1 :=
  rnd_dyadic 24 (-1) 0 (by push_cast; ring) (by norm_num) (by norm_num) (by norm_num)

lemma rnd_one_val : rnd 24 (1:ℚ) = 1 :=
  rnd_dyadic 24 1 0 (by push_cast; ring) (by norm_num) (by norm_num) (by norm_num)

lemma inv20_val : rnd 24 ((1:ℚ)/1048576) = 1/1048576 := by
  rw [rnd_dyadic 24 1 (-20)
    (by rw [show (-20 : ℤ) = -((20:ℕ):ℤ) by norm_num, two_zpow_neg_nat 20]; norm_num)
    (by norm_num) (by norm_num) (by norm_num)]

/-- The single genuinely inexact step on the failing input: the float product
2045 * 815787 = 1668284415 rounds up to 1668284416 = 1591 * 2^20. -/
lemma f32mul_2045_815787 : f32mul (2045:ℚ) 815787 = 1668284416 := by
  unfold f32mul
  rw [show (2045:ℚ) * 815787 = 1668284415 by norm_num]
  have h30 : (2:ℚ) ^ (30:ℤ) = 1073741824 := by
    rw [show (30:ℤ) = ((30:ℕ):ℤ) by norm_num, ← nat_pow_cast_zpow 30]
    norm_num
  have h31 : (2:ℚ) ^ ((30:ℤ)+1) = 2147483648 := by
    rw [show ((30:ℤ)+1) = ((31:ℕ):ℤ) by norm_num, ← nat_pow_cast_zpow 31]
    norm_num
  have h7 : ((30:ℤ) + 1 - ((24:ℕ):ℤ)) = (7:ℤ) := by norm_num
  have h2p7 : (2:ℚ) ^ (7:ℤ) = 128 := by
    rw [show (7:ℤ) = ((7:ℕ):ℤ) by norm_num, ← nat_pow_cast_zpow 7]
    norm_num
  have hr : rne ((1668284415:ℚ) / 2 ^ ((30:ℤ) + 1 - ((24:ℕ):ℤ))) = 13033472 := by
    rw [h7, h2p7]
    have hhi := rne_eval_hi (q := (1668284415:ℚ)/128) (f := 13033471)
      (by norm_num) (by norm_num) (by norm_num)
    rw [hhi]
    norm_num
  have heval := rnd_eval_pos (p := 24) (x := (1668284415:ℚ)) (e := 30) (r := 13033472)
    (by norm_num) (by rw [h30]; norm_num) (by rw [h31]; norm_num)
    (by norm_num) (by norm_num) hr
  rw [heval, h7, h2p7]
  norm_num

lemma innerMul20_2045_815787 : innerMul20 (2045:ℚ) 815787 = -1 := by
  have eh := f32mul_2045_815787
  have el : f32fma (2045:ℚ) 815787 (-(1668284416:ℚ)) = -1 := by
    unfold f32fma
    rw [show (2045:ℚ) * 815787 + -(1668284416:ℚ) = -1 by norm_num]
    exact rnd_neg_one
  have eb2 : f32mul (1668284416:ℚ) (1/1048576) = 1591 := by
    unfold f32mul
    rw [show (1668284416:ℚ) * (1/1048576) = 1591 by norm_num]
    rw [show (1591:ℚ) = ((1591:ℕ):ℚ) by norm_num]
    exact rnd_natCast_small 24 1591 (by norm_num) (by norm_num)
  have ec : f32trunc (1591:ℚ) = 1591 := by
    unfold f32trunc
    rw [show (1591:ℚ) = ((1591:ℤ):ℚ) by norm_num, qtrunc_intCast]
  have ed : f32fma (-(1591:ℚ)) 1048576 1668284416 = 0 := by
    unfold f32fma
    rw [show (-(1591:ℚ)) * 1048576 + 1668284416 = 0 by norm_num]
    exact rnd_zero 24
  have efin : f32add (0:ℚ) (-1) = -1 := by
    unfold f32add
    rw [show (0:ℚ) + -1 = -1 by norm_num]
    exact rnd_neg_one
  unfold innerMul20
  dsimp only
  rw [eh, inv20_val, eb2, ec, ed, el, efin]

lemma innerMul20_512_0 : innerMul20 (512:ℚ) 0 = 0 := by
  have e7 : f32mul (512:ℚ) 0 = 0 := by
    unfold f32mul
    rw [mul_zero]
    exact rnd_zero 24
  have e8 : f32fma (512:ℚ) 0 (-(0:ℚ)) = 0 := by
    unfold f32fma
    rw [show (512:ℚ) * 0 + -(0:ℚ) = 0 by norm_num]
    exact rnd_zero 24
  have e9 : f32mul (0:ℚ) (1/1048576) = 0 := by
    unfold f32mul
    rw [zero_mul]
    exact rnd_zero 24
  have e3 : f32trunc (0:ℚ) = 0 := by
    unfold f32trunc
    rw [show (0:ℚ) = ((0:ℤ):ℚ) by norm_num, qtrunc_intCast]
  have e10 : f32fma (-(0:ℚ)) 1048576 0 = 0 := by
    unfold f32fma
    rw [show (-(0:ℚ)) * 1048576 + 0 = 0 by norm_num]
    exact rnd_zero 24
  have e11 : f32add (0:ℚ) 0 = 0 := by
    unfold f32add
    rw [add_zero]
    exact rnd_zero 24
  unfold innerMul20
  dsimp only
  rw [e7, inv20_val, e9, e3, e10, e8, e11]

lemma innerMul20_0_5472 : innerMul20 (0:ℚ) 5472 = 0 := by
  have e21 : f32mul (0:ℚ) 5472 = 0 := by
    unfold f32mul
    rw [zero_mul]
    exact rnd_zero 24
  have e22 : f32fma (0:ℚ) 5472 (-(0:ℚ)) = 0 := by
    unfold f32fma
    rw [show (0:ℚ) * 5472 + -(0:ℚ) = 0 by norm_num]
    exact rnd_zero 24
  have e9 : f32mul (0:ℚ) (1/1048576) = 0 := by
    unfold f32mul
    rw [zero_mul]
    exact rnd_zero 24
  have e3 : f32trunc (0:ℚ) = 0 := by
    unfold f32trunc
    rw [show (0:ℚ) = ((0:ℤ):ℚ) by norm_num, qtrunc_intCast]
  have e10 : f32fma (-(0:ℚ)) 1048576 0 = 0 := by
    unfold f32fma
    rw [show (-(0:ℚ)) * 1048576 + 0 = 0 by norm_num]
    exact rnd_zero 24
  have e11 : f32add (0:ℚ) 0 = 0 := by
    unfold f32add
    rw [add_zero]
    exact rnd_zero 24
  unfold innerMul20
  dsimp only
  rw [e21, inv20_val, e9, e3, e10, e22, e11]

lemma U31mul_bug :
    U31mul (U31new 1050621) (U31new 1670731776) = ((0:ℚ), (-1:ℚ)) := by
  have hA : U31new 1050621 = ((2045:ℚ), (512:ℚ)) := by
    unfold U31new
    rw [show (1050621 % 2048 : ℕ) = 2045 by norm_num,
      show (1050621 / 2048 % 1048576 : ℕ) = 512 by norm_num,
      rnd_natCast_small 24 2045 (by norm_num) (by norm_num),
      rnd_natCast_small 24 512 (by norm_num) (by norm_num)]
    norm_num
  have hB : U31new 1670731776 = ((0:ℚ), (815787:ℚ)) := by
    unfold U31new
    rw [show (1670731776 % 2048 : ℕ) = 0 by norm_num,
      show (1670731776 / 2048 % 1048576 : ℕ) = 815787 by norm_num,
      rnd_natCast_small 24 0 (by norm_num) (by norm_num),
      rnd_natCast_small 24 815787 (by norm_num) (by norm_num)]
    norm_num
  have e1 : f32mul (2045:ℚ) 0 = 0 := by
    unfold f32mul
    rw [mul_zero]
    exact rnd_zero 24
  have e2 : f32div (0:ℚ) 2048 = 0 := by
    unfold f32div
    rw [zero_div]
    exact rnd_zero 24
  have e3 : f32trunc (0:ℚ) = 0 := by
    unfold f32trunc
    rw [show (0:ℚ) = ((0:ℤ):ℚ) by norm_num, qtrunc_intCast]
  have e4 : f32fract (0:ℚ) = 0 := by
    unfold f32fract
    rw [e3]
    unfold f32sub
    rw [sub_zero]
    exact rnd_zero 24
  have e5 : f32mul (0:ℚ) 2048 = 0 := by
    unfold f32mul
    rw [zero_mul]
    exact rnd_zero 24
  have efin : f32add (0:ℚ) (-1) = -1 := by
    unfold f32add
    rw [show (0:ℚ) + -1 = -1 by norm_num]
    exact rnd_neg_one
  have e12 : f32add (-1:ℚ) 0 = -1 := by
    unfold f32add
    rw [add_zero]
    exact rnd_neg_one
  have e13 : f32div (512:ℚ) 512 = 1 := by
    unfold f32div
    rw [show (512:ℚ)/512 = 1 by norm_num]
    exact rnd_one_val
  have e14 : f32trunc (1:ℚ) = 1 := by
    unfold f32trunc
    rw [show (1:ℚ) = ((1:ℤ):ℚ) by norm_num, qtrunc_intCast]
  have e15 : f32fract (1:ℚ) = 0 := by
    unfold f32fract
    rw [e14]
    unfold f32sub
    rw [sub_self]
    exact rnd_zero 24
  have e16 : f32mul (0:ℚ) (512*64) = 0 := by
    unfold f32mul
    rw [zero_mul]
    exact rnd_zero 24
  have e17 : f32div (815787:ℚ) 512 = (815787:ℚ)/512 := by
    unfold f32div
    exact rnd_dyadic 24 815787 (-9)
      (by rw [show (-9 : ℤ) = -((9:ℕ):ℤ) by norm_num, two_zpow_neg_nat 9]
          push_cast
          norm_num)
      (by norm_num) (by norm_num) (by norm_num)
  have e18 : f32trunc ((815787:ℚ)/512) = 1593 := by
    unfold f32trunc
    rw [show (815787:ℚ) = ((815787:ℕ):ℚ) by norm_num,
      show (512:ℚ) = ((512:ℕ):ℚ) by norm_num, qtrunc_natCast_div]
    norm_num
  have e19 : f32fract ((815787:ℚ)/512) = 171/512 := by
    unfold f32fract
    rw [e18]
    unfold f32sub
    rw [show (815787:ℚ)/512 - 1593 = 171/512 by norm_num]
    exact rnd_dyadic 24 171 (-9)
      (by rw [show (-9 : ℤ) = -((9:ℕ):ℤ) by norm_num, two_zpow_neg_nat 9]
          push_cast
          norm_num)
      (by norm_num) (by norm_num) (by norm_num)
  have e20 : f32mul ((171:ℚ)/512) (512*32) = 5472 := by
    unfold f32mul
    rw [show (171:ℚ)/512 * (512*32) = 5472 by norm_num]
    rw [show (5472:ℚ) = ((5472:ℕ):ℚ) by norm_num]
    exact rnd_natCast_small 24 5472 (by norm_num) (by norm_num)
  rw [hA, hB]
  unfold U31mul
  dsimp only
  rw [e1, e2, e3, e4, e5, innerMul20_2045_815787, efin, innerMul20_512_0, e12,
    if_neg (by norm_num : ¬ (1048576:ℚ) ≤ -1), e13, e15, e16, e17, e19, e20,
    innerMul20_0_5472, e12, if_neg (by norm_num : ¬ (1048576:ℚ) ≤ -1)]

lemma U31new_bug_expected :
    U31new ((1050621 * 1670731776) % 2^31) = ((0:ℚ), (1048575:ℚ)) := by
  unfold U31new
  rw [show ((1050621 * 1670731776) % 2^31 % 2048 : ℕ) = 0 by norm_num,
    show ((1050621 * 1670731776) % 2^31 / 2048 % 1048576 : ℕ) = 1048575 by norm_num,
    rnd_natCast_small 24 0 (by norm_num) (by norm_num),
    rnd_natCast_small 24 1048575 (by norm_num) (by norm_num)]
  norm_num

/-- C3 (refuted): the asymmetric 11/20-bit split multiply does NOT satisfy
U31::new(a) * U31::new(b) = U31::new((a*b) mod 2^31) for all a, b < 2^31.
At (a, b) = (1050621, 1670731776) the inner product 2045 * 815787 rounds up
across a multiple of 2^20, so the recovered error term -1 is added to an
exact multiple of 2^20 and the returned high limb is the non-canonical -1,
while the correct result has high limb 1048575. -/
theorem claim_C3 :
    U31mul (U31new 1050621) (U31new 1670731776) = ((0:ℚ), (-1:ℚ)) ∧
    U31new ((1050621 * 1670731776) % 2^31) = ((0:ℚ), (1048575:ℚ)) ∧
    ¬ (∀ a b : ℕ, a < 2^31 → b < 2^31 →
        U31mul (U31new a) (U31new b) = U31new ((a * b) % 2^31)) := by
  refine ⟨U31mul_bug, U31new_bug_expected, ?_⟩
  intro hall
  have h := hall 1050621 1670731776 (by norm_num) (by norm_num)
  rw [U31mul_bug, U31new_bug_expected] at h
  have h2 := congrArg Prod.snd h
  norm_num at h2
